import Mathlib

/-!
A shallow embedding of the metrics computation engine of the analyzed
repository (TypeScript static code-quality metrics): the syntax-tree node
model, the generic pre-order tree traversal, the cyclomatic-complexity,
Halstead, logical-lines-of-code and maintainability calculators, the
function analyzer (discovery, naming, de-duplication, sorting) and the
file-level aggregator with its inheritance-depth fixed-point relaxation.

Floating-point numbers of the source are modelled as real numbers; the
transcendental functions Math.log and Math.log2 are Real.log and
Real.logb 2.  Machine integers stay in Nat (all counters are small and
non-negative, no overflow is possible in the source ranges).
-/

namespace Qualytics

/-- Source span of a node: start and end line, as in node.loc of the
parser output.  Only the line numbers are used by the engine. -/
structure SourceSpan where
  startLine : Nat
  endLine : Nat
deriving DecidableEq, Repr

/-- The syntax-tree node model: the fragment of the TSESTree node taxonomy
that the metrics engine inspects.  Each constructor mirrors one
AST_NODE_TYPES tag together with the child fields the engine reads.
Fields the engine never touches are omitted; node spans are kept only on
function-like nodes, the single place where the engine consults node.loc. -/
inductive Node where
  | program (body : List Node)
  | identifier (name : String)
  | literal (value : String)
  | blockStatement (body : List Node)
  | expressionStatement (expr : Node)
  | returnStatement (argument : Option Node)
  | throwStatement (argument : Node)
  | breakStatement
  | continueStatement
  | ifStatement (test consequent : Node) (alternate : Option Node)
  | forStatement (ini test update : Option Node) (body : Node)
  | forInStatement (left right body : Node)
  | forOfStatement (left right body : Node)
  | whileStatement (test body : Node)
  | doWhileStatement (body test : Node)
  | switchStatement (discriminant : Node) (cases : List Node)
  | switchCase (test : Option Node) (consequent : List Node)
  | tryStatement (block : Node) (handler : Option Node) (finalizer : Option Node)
  | catchClause (param : Option Node) (body : Node)
  | variableDeclaration (declarations : List Node)
  | variableDeclarator (id : Node) (ini : Option Node)
  | binaryExpression (operator : String) (left right : Node)
  | logicalExpression (operator : String) (left right : Node)
  | assignmentExpression (operator : String) (left right : Node)
  | updateExpression (operator : String) (argument : Node)
  | unaryExpression (operator : String) (argument : Node)
  | conditionalExpression (test consequent alternate : Node)
  | callExpression (callee : Node) (arguments : List Node)
  | newExpression (callee : Node) (arguments : List Node)
  | memberExpression (object property : Node) (computed : Bool)
  | functionDeclaration (id : Option Node) (params : List Node) (body : Node)
      (loc : Option SourceSpan)
  | functionExpression (id : Option Node) (params : List Node) (body : Node)
      (loc : Option SourceSpan)
  | arrowFunctionExpression (params : List Node) (body : Node)
      (loc : Option SourceSpan)
  | methodDefinition (key value : Node) (kind : String) (loc : Option SourceSpan)
  | classDeclaration (id superClass : Option Node) (implementsList : List Node)
      (body : Node)
  | classExpression (id superClass : Option Node) (implementsList : List Node)
      (body : Node)
  | classBody (body : List Node)
  | propertyDefinition (key : Node) (value : Option Node)
  | tsParameterProperty (parameter : Node)
  | tsInterfaceDeclaration (id : Option Node) (extendsList : List Node) (body : Node)
  | tsInterfaceHeritage (expression : Node)
  | tsClassImplements (expression : Node)
  | tsInterfaceBody (body : List Node)

namespace Node

/-- The AST_NODE_TYPES tag of a node, i.e. the string stored in the
node.type field that every calculator dispatches on. -/
def nodeType : Node → String
  | program _ => "Program"
  | identifier _ => "Identifier"
  | literal _ => "Literal"
  | blockStatement _ => "BlockStatement"
  | expressionStatement _ => "ExpressionStatement"
  | returnStatement _ => "ReturnStatement"
  | throwStatement _ => "ThrowStatement"
  | breakStatement => "BreakStatement"
  | continueStatement => "ContinueStatement"
  | ifStatement _ _ _ => "IfStatement"
  | forStatement _ _ _ _ => "ForStatement"
  | forInStatement _ _ _ => "ForInStatement"
  | forOfStatement _ _ _ => "ForOfStatement"
  | whileStatement _ _ => "WhileStatement"
  | doWhileStatement _ _ => "DoWhileStatement"
  | switchStatement _ _ => "SwitchStatement"
  | switchCase _ _ => "SwitchCase"
  | tryStatement _ _ _ => "TryStatement"
  | catchClause _ _ => "CatchClause"
  | variableDeclaration _ => "VariableDeclaration"
  | variableDeclarator _ _ => "VariableDeclarator"
  | binaryExpression _ _ _ => "BinaryExpression"
  | logicalExpression _ _ _ => "LogicalExpression"
  | assignmentExpression _ _ _ => "AssignmentExpression"
  | updateExpression _ _ => "UpdateExpression"
  | unaryExpression _ _ => "UnaryExpression"
  | conditionalExpression _ _ _ => "ConditionalExpression"
  | callExpression _ _ => "CallExpression"
  | newExpression _ _ => "NewExpression"
  | memberExpression _ _ _ => "MemberExpression"
  | functionDeclaration _ _ _ _ => "FunctionDeclaration"
  | functionExpression _ _ _ _ => "FunctionExpression"
  | arrowFunctionExpression _ _ _ => "ArrowFunctionExpression"
  | methodDefinition _ _ _ _ => "MethodDefinition"
  | classDeclaration _ _ _ _ => "ClassDeclaration"
  | classExpression _ _ _ _ => "ClassExpression"
  | classBody _ => "ClassBody"
  | propertyDefinition _ _ => "PropertyDefinition"
  | tsParameterProperty _ => "TSParameterProperty"
  | tsInterfaceDeclaration _ _ _ => "TSInterfaceDeclaration"
  | tsInterfaceHeritage _ => "TSInterfaceHeritage"
  | tsClassImplements _ => "TSClassImplements"
  | tsInterfaceBody _ => "TSInterfaceBody"

mutual
/-- All nodes of a subtree in pre-order: the node itself, then the
subtrees of its node-valued fields in field order.  This is the visit
sequence of the generic traverseAST(node, callback) of the source, which
recurses into every object or array field carrying a type tag (the tree
has no aliased children, so each node object is visited exactly once). -/
def subtreeNodes : Node → List Node
  | .program body => (.program body) :: (subtreeNodesList body)
  | .identifier name => [(.identifier name)]
  | .literal value => [(.literal value)]
  | .blockStatement body => (.blockStatement body) :: (subtreeNodesList body)
  | .expressionStatement expr => (.expressionStatement expr) :: (subtreeNodes expr)
  | .returnStatement argument => (.returnStatement argument) :: (subtreeNodesOpt argument)
  | .throwStatement argument => (.throwStatement argument) :: (subtreeNodes argument)
  | .breakStatement => [.breakStatement]
  | .continueStatement => [.continueStatement]
  | .ifStatement test consequent alternate => (.ifStatement test consequent alternate) :: (subtreeNodes test ++ subtreeNodes consequent ++ subtreeNodesOpt alternate)
  | .forStatement ini test update body => (.forStatement ini test update body) :: (subtreeNodesOpt ini ++ subtreeNodesOpt test ++ subtreeNodesOpt update ++ subtreeNodes body)
  | .forInStatement left right body => (.forInStatement left right body) :: (subtreeNodes left ++ subtreeNodes right ++ subtreeNodes body)
  | .forOfStatement left right body => (.forOfStatement left right body) :: (subtreeNodes left ++ subtreeNodes right ++ subtreeNodes body)
  | .whileStatement test body => (.whileStatement test body) :: (subtreeNodes test ++ subtreeNodes body)
  | .doWhileStatement body test => (.doWhileStatement body test) :: (subtreeNodes body ++ subtreeNodes test)
  | .switchStatement discriminant cases => (.switchStatement discriminant cases) :: (subtreeNodes discriminant ++ subtreeNodesList cases)
  | .switchCase test consequent => (.switchCase test consequent) :: (subtreeNodesOpt test ++ subtreeNodesList consequent)
  | .tryStatement block handler finalizer => (.tryStatement block handler finalizer) :: (subtreeNodes block ++ subtreeNodesOpt handler ++ subtreeNodesOpt finalizer)
  | .catchClause param body => (.catchClause param body) :: (subtreeNodesOpt param ++ subtreeNodes body)
  | .variableDeclaration declarations => (.variableDeclaration declarations) :: (subtreeNodesList declarations)
  | .variableDeclarator id ini => (.variableDeclarator id ini) :: (subtreeNodes id ++ subtreeNodesOpt ini)
  | .binaryExpression operator left right => (.binaryExpression operator left right) :: (subtreeNodes left ++ subtreeNodes right)
  | .logicalExpression operator left right => (.logicalExpression operator left right) :: (subtreeNodes left ++ subtreeNodes right)
  | .assignmentExpression operator left right => (.assignmentExpression operator left right) :: (subtreeNodes left ++ subtreeNodes right)
  | .updateExpression operator argument => (.updateExpression operator argument) :: (subtreeNodes argument)
  | .unaryExpression operator argument => (.unaryExpression operator argument) :: (subtreeNodes argument)
  | .conditionalExpression test consequent alternate => (.conditionalExpression test consequent alternate) :: (subtreeNodes test ++ subtreeNodes consequent ++ subtreeNodes alternate)
  | .callExpression callee arguments => (.callExpression callee arguments) :: (subtreeNodes callee ++ subtreeNodesList arguments)
  | .newExpression callee arguments => (.newExpression callee arguments) :: (subtreeNodes callee ++ subtreeNodesList arguments)
  | .memberExpression object property computed => (.memberExpression object property computed) :: (subtreeNodes object ++ subtreeNodes property)
  | .functionDeclaration id params body loc => (.functionDeclaration id params body loc) :: (subtreeNodesOpt id ++ subtreeNodesList params ++ subtreeNodes body)
  | .functionExpression id params body loc => (.functionExpression id params body loc) :: (subtreeNodesOpt id ++ subtreeNodesList params ++ subtreeNodes body)
  | .arrowFunctionExpression params body loc => (.arrowFunctionExpression params body loc) :: (subtreeNodesList params ++ subtreeNodes body)
  | .methodDefinition key value kind loc => (.methodDefinition key value kind loc) :: (subtreeNodes key ++ subtreeNodes value)
  | .classDeclaration id superClass implementsList body => (.classDeclaration id superClass implementsList body) :: (subtreeNodesOpt id ++ subtreeNodesOpt superClass ++ subtreeNodesList implementsList ++ subtreeNodes body)
  | .classExpression id superClass implementsList body => (.classExpression id superClass implementsList body) :: (subtreeNodesOpt id ++ subtreeNodesOpt superClass ++ subtreeNodesList implementsList ++ subtreeNodes body)
  | .classBody body => (.classBody body) :: (subtreeNodesList body)
  | .propertyDefinition key value => (.propertyDefinition key value) :: (subtreeNodes key ++ subtreeNodesOpt value)
  | .tsParameterProperty parameter => (.tsParameterProperty parameter) :: (subtreeNodes parameter)
  | .tsInterfaceDeclaration id extendsList body => (.tsInterfaceDeclaration id extendsList body) :: (subtreeNodesOpt id ++ subtreeNodesList extendsList ++ subtreeNodes body)
  | .tsInterfaceHeritage expression => (.tsInterfaceHeritage expression) :: (subtreeNodes expression)
  | .tsClassImplements expression => (.tsClassImplements expression) :: (subtreeNodes expression)
  | .tsInterfaceBody body => (.tsInterfaceBody body) :: (subtreeNodesList body)

/-- Pre-order subtree nodes of an array-valued child field. -/
def subtreeNodesList : List Node → List Node
  | [] => []
  | n :: l => subtreeNodes n ++ subtreeNodesList l

/-- Pre-order subtree nodes of an optional child field. -/
def subtreeNodesOpt : Option Node → List Node
  | none => []
  | some n => subtreeNodes n
end

end Node

/-! ## Cyclomatic Complexity Calculator (metrics/complexity.ts) -/

namespace CyclomaticComplexityCalculator

/-- The CONTROL_FLOW_NODES set of node-type tags. -/
def CONTROL_FLOW_NODES : List String :=
  ["IfStatement", "ForStatement", "ForInStatement", "ForOfStatement",
   "WhileStatement", "DoWhileStatement", "CatchClause",
   "ConditionalExpression", "TryStatement", "ThrowStatement"]

/-- The LOGICAL_OPERATORS set. -/
def LOGICAL_OPERATORS : List String := ["&&", "||", "??"]

/-- node.type === SwitchCase && node.test !== null. -/
def isSwitchCase : Node → Bool
  | .switchCase test _ => test.isSome
  | _ => false

/-- node.type === LogicalExpression && LOGICAL_OPERATORS.has(node.operator). -/
def isLogicalExpression : Node → Bool
  | .logicalExpression op _ _ => LOGICAL_OPERATORS.contains op
  | _ => false

def isComplexityIncreasingNode (n : Node) : Bool :=
  CONTROL_FLOW_NODES.contains n.nodeType || isSwitchCase n || isLogicalExpression n

/-- process(ast): start complexity at 1 and increment once per visited
complexity-increasing node of the subtree. -/
def process (ast : Node) : Nat :=
  ast.subtreeNodes.foldl
    (fun complexity n =>
      if isComplexityIncreasingNode n then complexity + 1 else complexity) 1

end CyclomaticComplexityCalculator

/-! ## Halstead Metrics Calculator (metrics/halstead.ts) -/

/-- The calculator working set: two insertion-ordered string sets (JS Set,
modelled as duplicate-free lists) and two total-usage counters. -/
structure HalsteadData where
  operators : List String
  operands : List String
  operatorCount : Nat
  operandCount : Nat
deriving DecidableEq, Repr

/-- JS Set.add: append the element only when it is not yet present. -/
def setAdd (s : List String) (x : String) : List String :=
  if s.contains x then s else s ++ [x]

namespace HalsteadMetricsCalculator

/-- The freshly reset accumulator (resetData). -/
def emptyData : HalsteadData := ⟨[], [], 0, 0⟩

def processOperator (d : HalsteadData) (op : String) : HalsteadData :=
  { d with operators := setAdd d.operators op, operatorCount := d.operatorCount + 1 }

def processOperand (d : HalsteadData) (x : String) : HalsteadData :=
  { d with operands := setAdd d.operands x, operandCount := d.operandCount + 1 }

/-- The per-node action of gatherMetrics: operator matchers first (binary,
logical, assignment, update, unary expressions), then operand matchers
(identifier, literal, member-expression property), then call, conditional
and new expressions.  All other node kinds contribute nothing. -/
def visit (d : HalsteadData) (n : Node) : HalsteadData :=
  match n with
  | .binaryExpression op _ _ => processOperator d op
  | .logicalExpression op _ _ => processOperator d op
  | .assignmentExpression op _ _ => processOperator d op
  | .updateExpression op _ => processOperator d op
  | .unaryExpression op _ => processOperator d op
  | .identifier name => processOperand d name
  | .literal value => processOperand d value
  | .memberExpression _ property _ =>
      match property with
      | .identifier pname => processOperand d pname
      | _ => d
  | .callExpression callee _ =>
      match callee with
      | .identifier cname => processOperator d (cname ++ "()")
      | _ => d
  | .conditionalExpression _ _ _ => processOperator d "?:"
  | .newExpression _ _ => processOperator d "new"
  | _ => d

/-- gatherMetrics: fold the per-node action over the pre-order traversal,
starting from a fresh accumulator. -/
def gatherMetrics (ast : Node) : HalsteadData :=
  ast.subtreeNodes.foldl visit emptyData

/-- calculateVolume: Length * log2(Vocabulary) when Vocabulary > 0, else 0. -/
noncomputable def calculateVolume (d : HalsteadData) : ℝ :=
  let vocabulary := d.operators.length + d.operands.length
  let length := d.operatorCount + d.operandCount
  if vocabulary > 0 then (length : ℝ) * Real.logb 2 (vocabulary : ℝ) else 0

/-- process(ast) = reset, gather, volume. -/
noncomputable def process (ast : Node) : ℝ :=
  calculateVolume (gatherMetrics ast)

end HalsteadMetricsCalculator

/-! ## Maintainability index (metrics/maintainability.ts, also metrics.ts) -/

/-- calculateMaintainabilityIndex(volume, complexity, linesOfCode):
log terms flatten to 0 at non-positive arguments, raw score
171 - 5.2 ln(volume) - 0.23 complexity - 16.2 ln(loc), normalized by
100/171 and clamped below at 0. -/
noncomputable def calculateMaintainabilityIndex
    (volume complexity linesOfCode : ℝ) : ℝ :=
  let volumeLog := if volume > 0 then Real.log volume else 0
  let locLog := if linesOfCode > 0 then Real.log linesOfCode else 0
  let mi := 171 - 5.2 * volumeLog - 0.23 * complexity - 16.2 * locLog
  max 0 (mi * 100 / 171)

/-! ## Logical lines of code (FunctionAnalyzer.countLogicalLinesOfCode) -/

namespace FunctionAnalyzer

/-- The executableTypes set of FunctionAnalyzer.isExecutableNode. -/
def executableTypes : List String :=
  ["ExpressionStatement", "ReturnStatement", "ThrowStatement",
   "BreakStatement", "ContinueStatement", "DebuggerStatement",
   "DoWhileStatement", "ForStatement", "ForInStatement", "ForOfStatement",
   "IfStatement", "SwitchCase", "SwitchStatement", "TryStatement",
   "WhileStatement", "WithStatement",
   "VariableDeclaration", "FunctionDeclaration", "ClassDeclaration",
   "TSInterfaceDeclaration", "TSTypeAliasDeclaration", "TSEnumDeclaration",
   "ImportDeclaration", "ExportDefaultDeclaration", "ExportNamedDeclaration",
   "PropertyDefinition", "TSParameterProperty"]

def isExecutableNode (n : Node) : Bool :=
  executableTypes.contains n.nodeType

/-- countBlockStatements: one count per directly contained executable
statement of a block body. -/
def countBlockStatements (body : List Node) : Nat :=
  body.countP (fun statement => isExecutableNode statement)

/-- The params field of a function-valued node (used for the constructor
parameter-property count, where the source casts value to a
FunctionExpression). -/
def functionParams : Node → List Node
  | .functionDeclaration _ ps _ _ => ps
  | .functionExpression _ ps _ _ => ps
  | .arrowFunctionExpression ps _ _ => ps
  | _ => []

/-- The body field of a function-valued node. -/
def functionBodyOf : Node → Option Node
  | .functionDeclaration _ _ b _ => some b
  | .functionExpression _ _ b _ => some b
  | .arrowFunctionExpression _ b _ => some b
  | _ => none

/-- What one visited node adds to the logical-line count: the switch body
of countLogicalLinesOfCode.  The source also keeps a processedNodes
identity set, but the pre-order traversal of a tree visits each node
object exactly once and only visited nodes are inserted, so the
"already processed" early return can never fire and the set is inert;
the per-node contribution below is therefore exact. -/
def llocVisit (n : Node) : Nat :=
  match n with
  | .variableDeclaration _ => 1
  | .methodDefinition _ value kind _ =>
      1 +
      (if kind == "constructor" then
        (functionParams value).countP
          (fun p => p.nodeType == "TSParameterProperty")
      else 0) +
      (match functionBodyOf value with
       | some (.blockStatement body) => countBlockStatements body
       | _ => 0)
  | .functionDeclaration _ _ body _ =>
      1 +
      (match body with
       | .blockStatement stmts => countBlockStatements stmts
       | _ => 0)
  | .functionExpression _ _ body _ =>
      1 +
      (match body with
       | .blockStatement stmts => countBlockStatements stmts
       | _ => 0)
  | .arrowFunctionExpression _ body _ =>
      1 +
      (match body with
       | .blockStatement stmts => countBlockStatements stmts
       | _ => 1)
  | _ => if isExecutableNode n then 1 else 0

/-- countLogicalLinesOfCode: sum the per-node contributions over the
pre-order traversal. -/
def countLogicalLinesOfCode (node : Node) : Nat :=
  node.subtreeNodes.foldl (fun loc n => loc + llocVisit n) 0

/-- Public wrapper used by the file aggregator (countLogicalLines). -/
def countLogicalLines (node : Node) : Nat :=
  countLogicalLinesOfCode node

end FunctionAnalyzer

/-! ## Metrics records (types/metrics.ts) -/

/-- CodeMetrics: the per-unit metrics record. -/
structure CodeMetrics where
  linesOfCode : Nat
  cyclomaticComplexity : Nat
  maintainabilityIndex : ℝ
  depthOfInheritance : Nat
  classCount : Nat
  methodCount : Nat
  averageMethodComplexity : ℝ

structure HalsteadMetrics where
  volume : ℝ

structure MetricsDetails where
  halstead : HalsteadMetrics
  complexity : Nat
  loc : Nat

structure MetricsResult where
  metrics : CodeMetrics
  details : MetricsDetails

/-- The FunctionType union: function, method or arrow. -/
inductive FunctionType where
  | function
  | method
  | arrow
deriving DecidableEq, Repr

/-- One discovered function-like unit (FunctionAnalysis). -/
structure FunctionAnalysis where
  name : String
  type : FunctionType
  startLine : Nat
  endLine : Nat
  metrics : MetricsResult

/-- FunctionInfo: the shape a FunctionAnalysis is mapped to inside the
final FileAnalysis. -/
structure FunctionInfo where
  name : String
  type : FunctionType
  startLine : Nat
  endLine : Nat
  metrics : CodeMetrics

structure FileAnalysis where
  fileMetrics : CodeMetrics
  functions : List FunctionInfo

/-! ## Function Analyzer: discovery, naming, de-duplication, sorting -/

namespace FunctionAnalyzer

/-- isFunctionLike of types/nodes.ts. -/
def isFunctionLike (n : Node) : Bool :=
  ["FunctionDeclaration", "FunctionExpression", "ArrowFunctionExpression",
   "MethodDefinition"].contains n.nodeType

/-- FunctionAnalyzer.calculate: all per-function metrics are computed over
the one node passed in. -/
noncomputable def calculate (node : Node) : MetricsResult :=
  let halsteadVolume := HalsteadMetricsCalculator.process node
  let complexity := CyclomaticComplexityCalculator.process node
  let loc := countLogicalLinesOfCode node
  let maintainabilityIndex :=
    calculateMaintainabilityIndex halsteadVolume (complexity : ℝ) (loc : ℝ)
  { metrics :=
      { linesOfCode := loc
        cyclomaticComplexity := complexity
        maintainabilityIndex := maintainabilityIndex
        depthOfInheritance := 0
        classCount := 0
        methodCount := 1
        averageMethodComplexity := (complexity : ℝ) }
    details :=
      { halstead := { volume := halsteadVolume }
        complexity := complexity
        loc := loc } }

/-- getFunctionName; the node.parent back-reference of the source is
passed explicitly (it is always the traversal parent). -/
def getFunctionName (parent : Option Node) (n : Node) : String :=
  match n with
  | .functionDeclaration id _ _ _ =>
      match id with
      | some (.identifier s) => s
      | _ => "<anonymous>"
  | .methodDefinition key _ _ _ =>
      match key with
      | .identifier s => s
      | _ => "<computed>"
  | .arrowFunctionExpression _ _ _ =>
      arrowOrExprName parent "<arrow>"
  | .functionExpression _ _ _ _ =>
      arrowOrExprName parent "<anonymous>"
  | _ => "<unknown>"
where
  arrowOrExprName (parent : Option Node) (fallback : String) : String :=
    match parent with
    | some (.variableDeclarator (.identifier s) _) => s
    | some (.methodDefinition key _ _ _) =>
        match key with
        | .identifier s => s
        | _ => "<computed>"
    | _ => fallback

def getFunctionType (n : Node) : FunctionType :=
  match n with
  | .functionDeclaration _ _ _ _ => .function
  | .functionExpression _ _ _ _ => .function
  | .methodDefinition _ _ _ _ => .method
  | .arrowFunctionExpression _ _ _ => .arrow
  | _ => .function

/-- The node.loc field of the function-like nodes (the only place the
analyzer reads a span). -/
def locOf : Node → Option SourceSpan
  | .functionDeclaration _ _ _ loc => loc
  | .functionExpression _ _ _ loc => loc
  | .arrowFunctionExpression _ _ loc => loc
  | .methodDefinition _ _ _ loc => loc
  | _ => none

/-- The units emitted when processFunction visits node n.  skipped is true
exactly when the node is in the processedNodes identity set at visit time,
i.e. when it is the function value of an already processed method
definition (the only nodes ever pre-inserted). -/
noncomputable def processFunction (parent : Option Node) (skipped : Bool)
    (n : Node) : List FunctionAnalysis :=
  if skipped then []
  else
    match n with
    | .methodDefinition _ value _ loc =>
        match loc with
        | some l =>
            [{ name := getFunctionName parent n
               type := .method
               startLine := l.startLine
               endLine := l.endLine
               metrics := calculate value }]
        | none => []
    | _ =>
        if isFunctionLike n then
          match locOf n with
          | some l =>
              [{ name := getFunctionName parent n
                 type := getFunctionType n
                 startLine := l.startLine
                 endLine := l.endLine
                 metrics := calculate n }]
          | none => []
        else []

mutual
/-- The units emitted strictly below node n (n's own emission excluded):
each child field is visited with n as parent and an unset skip flag,
except that the function value of a method definition is visited with the
skip flag set exactly when the method definition was itself processed
(had a span and was not skipped), mirroring the processedNodes inserts. -/
noncomputable def collectKids : Bool → Node → List FunctionAnalysis
  | _, .program body =>
      collectSeq (.program body) body
  | _, .identifier name => []
  | _, .literal value => []
  | _, .blockStatement body =>
      collectSeq (.blockStatement body) body
  | _, .expressionStatement expr =>
      processFunction (some (.expressionStatement expr)) false expr ++ collectKids false expr
  | _, .returnStatement argument =>
      collectOpt (.returnStatement argument) argument
  | _, .throwStatement argument =>
      processFunction (some (.throwStatement argument)) false argument ++ collectKids false argument
  | _, .breakStatement => []
  | _, .continueStatement => []
  | _, .ifStatement test consequent alternate =>
      processFunction (some (.ifStatement test consequent alternate)) false test ++ collectKids false test ++
      processFunction (some (.ifStatement test consequent alternate)) false consequent ++ collectKids false consequent ++
      collectOpt (.ifStatement test consequent alternate) alternate
  | _, .forStatement ini test update body =>
      collectOpt (.forStatement ini test update body) ini ++
      collectOpt (.forStatement ini test update body) test ++
      collectOpt (.forStatement ini test update body) update ++
      processFunction (some (.forStatement ini test update body)) false body ++ collectKids false body
  | _, .forInStatement left right body =>
      processFunction (some (.forInStatement left right body)) false left ++ collectKids false left ++
      processFunction (some (.forInStatement left right body)) false right ++ collectKids false right ++
      processFunction (some (.forInStatement left right body)) false body ++ collectKids false body
  | _, .forOfStatement left right body =>
      processFunction (some (.forOfStatement left right body)) false left ++ collectKids false left ++
      processFunction (some (.forOfStatement left right body)) false right ++ collectKids false right ++
      processFunction (some (.forOfStatement left right body)) false body ++ collectKids false body
  | _, .whileStatement test body =>
      processFunction (some (.whileStatement test body)) false test ++ collectKids false test ++
      processFunction (some (.whileStatement test body)) false body ++ collectKids false body
  | _, .doWhileStatement body test =>
      processFunction (some (.doWhileStatement body test)) false body ++ collectKids false body ++
      processFunction (some (.doWhileStatement body test)) false test ++ collectKids false test
  | _, .switchStatement discriminant cases =>
      processFunction (some (.switchStatement discriminant cases)) false discriminant ++ collectKids false discriminant ++
      collectSeq (.switchStatement discriminant cases) cases
  | _, .switchCase test consequent =>
      collectOpt (.switchCase test consequent) test ++
      collectSeq (.switchCase test consequent) consequent
  | _, .tryStatement block handler finalizer =>
      processFunction (some (.tryStatement block handler finalizer)) false block ++ collectKids false block ++
      collectOpt (.tryStatement block handler finalizer) handler ++
      collectOpt (.tryStatement block handler finalizer) finalizer
  | _, .catchClause param body =>
      collectOpt (.catchClause param body) param ++
      processFunction (some (.catchClause param body)) false body ++ collectKids false body
  | _, .variableDeclaration declarations =>
      collectSeq (.variableDeclaration declarations) declarations
  | _, .variableDeclarator id ini =>
      processFunction (some (.variableDeclarator id ini)) false id ++ collectKids false id ++
      collectOpt (.variableDeclarator id ini) ini
  | _, .binaryExpression operator left right =>
      processFunction (some (.binaryExpression operator left right)) false left ++ collectKids false left ++
      processFunction (some (.binaryExpression operator left right)) false right ++ collectKids false right
  | _, .logicalExpression operator left right =>
      processFunction (some (.logicalExpression operator left right)) false left ++ collectKids false left ++
      processFunction (some (.logicalExpression operator left right)) false right ++ collectKids false right
  | _, .assignmentExpression operator left right =>
      processFunction (some (.assignmentExpression operator left right)) false left ++ collectKids false left ++
      processFunction (some (.assignmentExpression operator left right)) false right ++ collectKids false right
  | _, .updateExpression operator argument =>
      processFunction (some (.updateExpression operator argument)) false argument ++ collectKids false argument
  | _, .unaryExpression operator argument =>
      processFunction (some (.unaryExpression operator argument)) false argument ++ collectKids false argument
  | _, .conditionalExpression test consequent alternate =>
      processFunction (some (.conditionalExpression test consequent alternate)) false test ++ collectKids false test ++
      processFunction (some (.conditionalExpression test consequent alternate)) false consequent ++ collectKids false consequent ++
      processFunction (some (.conditionalExpression test consequent alternate)) false alternate ++ collectKids false alternate
  | _, .callExpression callee arguments =>
      processFunction (some (.callExpression callee arguments)) false callee ++ collectKids false callee ++
      collectSeq (.callExpression callee arguments) arguments
  | _, .newExpression callee arguments =>
      processFunction (some (.newExpression callee arguments)) false callee ++ collectKids false callee ++
      collectSeq (.newExpression callee arguments) arguments
  | _, .memberExpression object property computed =>
      processFunction (some (.memberExpression object property computed)) false object ++ collectKids false object ++
      processFunction (some (.memberExpression object property computed)) false property ++ collectKids false property
  | _, .functionDeclaration id params body loc =>
      collectOpt (.functionDeclaration id params body loc) id ++
      collectSeq (.functionDeclaration id params body loc) params ++
      processFunction (some (.functionDeclaration id params body loc)) false body ++ collectKids false body
  | _, .functionExpression id params body loc =>
      collectOpt (.functionExpression id params body loc) id ++
      collectSeq (.functionExpression id params body loc) params ++
      processFunction (some (.functionExpression id params body loc)) false body ++ collectKids false body
  | _, .arrowFunctionExpression params body loc =>
      collectSeq (.arrowFunctionExpression params body loc) params ++
      processFunction (some (.arrowFunctionExpression params body loc)) false body ++ collectKids false body
  | skipped, .methodDefinition key value kind loc =>
      processFunction (some (.methodDefinition key value kind loc)) false key ++ collectKids false key ++
      processFunction (some (.methodDefinition key value kind loc)) (loc.isSome && !skipped) value ++
      collectKids (loc.isSome && !skipped) value
  | _, .classDeclaration id superClass implementsList body =>
      collectOpt (.classDeclaration id superClass implementsList body) id ++
      collectOpt (.classDeclaration id superClass implementsList body) superClass ++
      collectSeq (.classDeclaration id superClass implementsList body) implementsList ++
      processFunction (some (.classDeclaration id superClass implementsList body)) false body ++ collectKids false body
  | _, .classExpression id superClass implementsList body =>
      collectOpt (.classExpression id superClass implementsList body) id ++
      collectOpt (.classExpression id superClass implementsList body) superClass ++
      collectSeq (.classExpression id superClass implementsList body) implementsList ++
      processFunction (some (.classExpression id superClass implementsList body)) false body ++ collectKids false body
  | _, .classBody body =>
      collectSeq (.classBody body) body
  | _, .propertyDefinition key value =>
      processFunction (some (.propertyDefinition key value)) false key ++ collectKids false key ++
      collectOpt (.propertyDefinition key value) value
  | _, .tsParameterProperty parameter =>
      processFunction (some (.tsParameterProperty parameter)) false parameter ++ collectKids false parameter
  | _, .tsInterfaceDeclaration id extendsList body =>
      collectOpt (.tsInterfaceDeclaration id extendsList body) id ++
      collectSeq (.tsInterfaceDeclaration id extendsList body) extendsList ++
      processFunction (some (.tsInterfaceDeclaration id extendsList body)) false body ++ collectKids false body
  | _, .tsInterfaceHeritage expression =>
      processFunction (some (.tsInterfaceHeritage expression)) false expression ++ collectKids false expression
  | _, .tsClassImplements expression =>
      processFunction (some (.tsClassImplements expression)) false expression ++ collectKids false expression
  | _, .tsInterfaceBody body =>
      collectSeq (.tsInterfaceBody body) body

/-- Child visits of an array field: each element is processed with the
given parent and an unset skip flag, then its own children. -/
noncomputable def collectSeq (parent : Node) : List Node → List FunctionAnalysis
  | [] => []
  | n :: l =>
      processFunction (some parent) false n ++ collectKids false n ++
      collectSeq parent l

/-- Child visit of an optional field. -/
noncomputable def collectOpt (parent : Node) : Option Node → List FunctionAnalysis
  | none => []
  | some n => processFunction (some parent) false n ++ collectKids false n
end

/-- The pre-order emission of analyzeFunctions before sorting: the units
emitted at n itself (skipped is set when n is already in processedNodes,
i.e. when it is the pre-inserted function value of a processed method
definition), followed by the emissions below it. -/
noncomputable def collectFunctions (parent : Option Node) (skipped : Bool)
    (n : Node) : List FunctionAnalysis :=
  processFunction parent skipped n ++ collectKids skipped n

/-- Stable insertion by startLine: the element is placed after every
element with a strictly smaller or equal... (strictly smaller) start line
and before the first element whose start line is not smaller, which is
where a stable ascending sort puts it. -/
def insertByStartLine (a : FunctionAnalysis) :
    List FunctionAnalysis → List FunctionAnalysis
  | [] => [a]
  | b :: l =>
      if b.startLine < a.startLine then b :: insertByStartLine a l
      else a :: b :: l

/-- functions.sort((a, b) => a.startLine - b.startLine): the ECMAScript
Array.prototype.sort is required to be stable and to sort by the
comparator, and a stable ascending permutation is unique, so this stable
insertion sort computes exactly the source's result. -/
def sortByStartLine (l : List FunctionAnalysis) : List FunctionAnalysis :=
  l.foldr insertByStartLine []

/-- analyzeFunctions: discover all function-like units, then sort by
start line. -/
noncomputable def analyzeFunctions (ast : Node) : List FunctionAnalysis :=
  sortByStartLine (collectFunctions none false ast)

/-- The claim-side provenance of a discovered unit's metrics record: the
unit was computed by calculate over an entire node of the tree — for a
method definition over its function-value node (parameter list included,
method key excluded), for every other function-like over the node
itself (name identifier and parameter list included). -/
def unitFromNode (m : Node) (u : FunctionAnalysis) : Prop :=
  (∃ key value kind loc, m = Node.methodDefinition key value kind loc
      ∧ u.type = FunctionType.method ∧ u.metrics = calculate value)
  ∨ (isFunctionLike m = true ∧ u.metrics = calculate m)

end FunctionAnalyzer

/-! ## File Metrics Analyzer (metrics/index.ts) -/

/-- The inheritance map: a JS Map from type name to depth, modelled as an
insertion-ordered association list with distinct keys. -/
abbrev DepthMap := List (String × Nat)

/-- Map.get. -/
def mapGet (m : DepthMap) (k : String) : Option Nat :=
  (m.find? (fun p => p.1 == k)).map (fun p => p.2)

/-- Map.set: overwrite in place when the key exists (keeping insertion
order), append otherwise. -/
def mapSet (m : DepthMap) (k : String) (v : Nat) : DepthMap :=
  if m.any (fun p => p.1 == k) then
    m.map (fun p => if p.1 == k then (k, v) else p)
  else m ++ [(k, v)]

namespace FileMetricsAnalyzer

/-- countClasses: one count per ClassDeclaration or ClassExpression node. -/
def countClasses (ast : Node) : Nat :=
  ast.subtreeNodes.countP
    (fun n => n.nodeType == "ClassDeclaration" || n.nodeType == "ClassExpression")

/-- The name of the id field when it is present (the parser types id as an
Identifier, whose name the source reads directly). -/
def identName : Option Node → Option String
  | some (.identifier s) => some s
  | _ => none

/-- getTypeIdentifier: name of a class or interface declaration. -/
def getTypeIdentifier : Node → Option String
  | .classDeclaration id _ _ _ => identName id
  | .classExpression id _ _ _ => identName id
  | .tsInterfaceDeclaration id _ _ => identName id
  | _ => none

/-- getSuperclassIdentifier: the superClass when it is a plain identifier. -/
def getSuperclassIdentifier : Node → Option String
  | .classDeclaration _ (some (.identifier s)) _ _ => some s
  | .classExpression _ (some (.identifier s)) _ _ => some s
  | _ => none

/-- getExtendedInterfaces: the extends entries of an interface whose
heritage expression is a plain identifier. -/
def getExtendedInterfaces : Node → List String
  | .tsInterfaceDeclaration _ exts _ =>
      exts.filterMap (fun e =>
        match e with
        | .tsInterfaceHeritage (.identifier s) => some s
        | _ => none)
  | _ => []

/-- getImplementedInterfaces: the implements entries of a class whose
expression is a plain identifier. -/
def getImplementedInterfaces : Node → List String
  | .classDeclaration _ _ impls _ =>
      impls.filterMap (fun e =>
        match e with
        | .tsClassImplements (.identifier s) => some s
        | _ => none)
  | .classExpression _ _ impls _ =>
      impls.filterMap (fun e =>
        match e with
        | .tsClassImplements (.identifier s) => some s
        | _ => none)
  | _ => []

/-- The state of the first pass of calculateInheritanceDepth: the
inheritance map (every named type at base depth 1) and the inheritance
edge list, in traversal order. -/
structure InheritanceInfo where
  depths : DepthMap
  edges : List (String × String)
deriving DecidableEq, Repr

/-- The per-node action of the first pass: initialize the type's base
depth, then push its superclass, extends and implements edges. -/
def collectVisit (st : InheritanceInfo) (n : Node) : InheritanceInfo :=
  match getTypeIdentifier n with
  | none => st
  | some typeName =>
      { depths := mapSet st.depths typeName 1
        edges := st.edges
          ++ (match getSuperclassIdentifier n with
              | some s => [(typeName, s)]
              | none => [])
          ++ (getExtendedInterfaces n).map (fun i => (typeName, i))
          ++ (getImplementedInterfaces n).map (fun i => (typeName, i)) }

/-- First pass over the whole tree. -/
def collectInheritance (ast : Node) : InheritanceInfo :=
  ast.subtreeNodes.foldl collectVisit ⟨[], []⟩

/-- One relaxation step of one edge (child, parent): raise the child's
depth to parent + 1 when that is larger; absent entries default to 1
(the || 1 of the source). -/
def relaxEdge (m : DepthMap) (e : String × String) : DepthMap × Bool :=
  let parentDepth := (mapGet m e.2).getD 1
  let currentDepth := (mapGet m e.1).getD 1
  let newDepth := parentDepth + 1
  if newDepth > currentDepth then (mapSet m e.1 newDepth, true) else (m, false)

/-- One full pass of the do..while body: relax every edge in order,
or-accumulating the changed flag. -/
def relaxPass (edges : List (String × String)) (m : DepthMap) : DepthMap × Bool :=
  edges.foldl (fun acc e =>
    let r := relaxEdge acc.1 e
    (r.1, acc.2 || r.2)) (m, false)

/-- The do { pass } while (changed) loop, with an explicit pass budget:
some m when a pass without change is reached within fuel passes (m is then
the loop's result), none when the source loop would still be running after
fuel passes.  The source has no bound: a run that is none for every fuel
is a run on which the source never terminates. -/
def runRelax (edges : List (String × String)) : Nat → DepthMap → Option DepthMap
  | 0, _ => none
  | fuel + 1, m =>
      let r := relaxPass edges m
      if r.2 then runRelax edges fuel r.1 else some r.1

/-- Math.max(...inheritanceMap.values()). -/
def maxDepthValue (m : DepthMap) : Nat :=
  (m.map (fun p => p.2)).foldl max 0

/-- calculateInheritanceDepth: collect, relax to the fixed point, return
the maximum depth (0 for an empty map). -/
def calculateInheritanceDepth (ast : Node) (fuel : Nat) : Option Nat :=
  let info := collectInheritance ast
  (runRelax info.edges fuel info.depths).map
    (fun m => if m.length > 0 then maxDepthValue m else 0)

/-- The projection of a discovered FunctionAnalysis into the FunctionInfo
shape of the final result (the map at the end of analyzeFile). -/
def toFunctionInfo (f : FunctionAnalysis) : FunctionInfo :=
  { name := f.name
    type := f.type
    startLine := f.startLine
    endLine := f.endLine
    metrics := f.metrics.metrics }

/-- createEmptyAnalysis: the all-zero FileAnalysis substituted when
parsing fails. -/
def createEmptyAnalysis : FileAnalysis :=
  { fileMetrics :=
      { linesOfCode := 0
        cyclomaticComplexity := 0
        maintainabilityIndex := 0
        classCount := 0
        methodCount := 0
        averageMethodComplexity := 0
        depthOfInheritance := 0 }
    functions := [] }

/-- The successful branch of analyzeFile, given the already resolved
inheritance depth: file-level metrics over the whole tree, the average
method complexity as the mean of the discovered functions' complexities,
and the sorted per-function records. -/
noncomputable def analyzeParsed (ast : Node) (depthOfInheritance : Nat) :
    FileAnalysis :=
  let functions := FunctionAnalyzer.analyzeFunctions ast
  let fileComplexity := CyclomaticComplexityCalculator.process ast
  let fileHalstead := HalsteadMetricsCalculator.process ast
  let fileLLOC := FunctionAnalyzer.countLogicalLines ast
  let maintainabilityIndex :=
    calculateMaintainabilityIndex fileHalstead (fileComplexity : ℝ) (fileLLOC : ℝ)
  let averageComplexity : ℝ :=
    if functions.length > 0 then
      (functions.foldl
        (fun sum fn => sum + (fn.metrics.metrics.cyclomaticComplexity : ℝ)) 0)
        / (functions.length : ℝ)
    else 0
  { fileMetrics :=
      { linesOfCode := fileLLOC
        cyclomaticComplexity := fileComplexity
        maintainabilityIndex := maintainabilityIndex
        averageMethodComplexity := averageComplexity
        methodCount := functions.length
        classCount := countClasses ast
        depthOfInheritance := depthOfInheritance }
    functions := functions.map toFunctionInfo }

/-- analyzeFile on a successfully parsed tree; none when the inheritance
relaxation has not converged within fuel passes (the source would not
have returned yet). -/
noncomputable def analyzeFileAST (ast : Node) (fuel : Nat) : Option FileAnalysis :=
  (calculateInheritanceDepth ast fuel).map (fun d => analyzeParsed ast d)

/-- analyzeFile: parsing is external (the parse call of the source); its
outcome is passed in as an Except.  The catch branch turns any parse
failure into createEmptyAnalysis instead of propagating it. -/
noncomputable def analyzeFile (parseResult : Except String Node) (fuel : Nat) :
    Option FileAnalysis :=
  match parseResult with
  | .ok ast => analyzeFileAST ast fuel
  | .error _ => some createEmptyAnalysis

end FileMetricsAnalyzer

/-! ## Claim-side predicates and concrete example trees -/

/-- The claim-side enumeration of complexity increments: if, for, for-in,
for-of, while, do-while, catch clause, ternary conditional, try, throw,
switch-case arms with a non-default test, and each occurrence of a
logical && / || / ?? operator. -/
def countedBranchNode : Node → Bool
  | .ifStatement _ _ _ => true
  | .forStatement _ _ _ _ => true
  | .forInStatement _ _ _ => true
  | .forOfStatement _ _ _ => true
  | .whileStatement _ _ => true
  | .doWhileStatement _ _ => true
  | .catchClause _ _ => true
  | .conditionalExpression _ _ _ => true
  | .tryStatement _ _ _ => true
  | .throwStatement _ => true
  | .switchCase (some _) _ => true
  | .logicalExpression op _ _ => op == "&&" || op == "||" || op == "??"
  | _ => false

/-- Example: function f() {} followed by a top-level if statement. -/
def exC1fun : Node :=
  .functionDeclaration (some (.identifier "f")) [] (.blockStatement [])
    (some ⟨1, 1⟩)

def exC1tree : Node :=
  .program [exC1fun, .ifStatement (.identifier "c") (.blockStatement []) none]

/-- Example: two class declarations extending each other (a malformed,
cyclic inheritance graph). -/
def exC2tree : Node :=
  .program
    [.classDeclaration (some (.identifier "A")) (some (.identifier "B")) []
      (.classBody []),
     .classDeclaration (some (.identifier "B")) (some (.identifier "A")) []
      (.classBody [])]

/-- Example: function f(x) {} (a named function with one parameter and an
empty body). -/
def exC4fn : Node :=
  .functionDeclaration (some (.identifier "f")) [.identifier "x"]
    (.blockStatement []) (some ⟨1, 1⟩)

def exC4tree : Node := .program [exC4fn]

/-- Example: the function value of a method m() {} and a class C holding
that single method. -/
def exC6value : Node :=
  .functionExpression none [] (.blockStatement []) (some ⟨2, 4⟩)

def exC6tree : Node :=
  .program
    [.classDeclaration (some (.identifier "C")) none []
      (.classBody [.methodDefinition (.identifier "m") exC6value "method"
        (some ⟨2, 4⟩)])]

/-- Example: a class X extending an identifier P that no declaration in
the tree binds. -/
def exC10tree : Node :=
  .program
    [.classDeclaration (some (.identifier "X")) (some (.identifier "P")) []
      (.classBody [])]

/-! ## Helper lemmas -/

theorem foldl_ifCount (p : Node → Bool) :
    ∀ (l : List Node) (k : Nat),
      l.foldl (fun acc n => if p n then acc + 1 else acc) k = k + l.countP p
  | [], k => by simp
  | n :: l, k => by
      simp only [List.foldl_cons, List.countP_cons, foldl_ifCount p l]
      by_cases hc : p n = true
      · rw [if_pos hc, if_pos hc]; omega
      · rw [if_neg hc, if_neg hc]; omega

theorem isComplexityIncreasingNode_eq_countedBranchNode (n : Node) :
    CyclomaticComplexityCalculator.isComplexityIncreasingNode n
      = countedBranchNode n := by
  cases n <;>
    simp only [CyclomaticComplexityCalculator.isComplexityIncreasingNode,
      CyclomaticComplexityCalculator.isSwitchCase,
      CyclomaticComplexityCalculator.isLogicalExpression,
      CyclomaticComplexityCalculator.CONTROL_FLOW_NODES,
      CyclomaticComplexityCalculator.LOGICAL_OPERATORS,
      Node.nodeType, countedBranchNode] <;>
    first
      | rfl
      | (rename_i t _; cases t <;> rfl)
      | decide
      | (apply Bool.eq_iff_iff.mpr
         simp [Bool.or_eq_true, decide_eq_true_eq, beq_iff_eq, or_assoc])

/-! ## C7: complexity = 1 + branch-occurrence count -/

/-- C7: for every subtree, the cyclomatic complexity equals 1 plus the
number of occurrences of the enumerated branching constructs (each
logical-operator occurrence counted separately), and is therefore always
at least 1. -/
theorem complexity_eq_one_add_branch_count (t : Node) :
    CyclomaticComplexityCalculator.process t
        = 1 + t.subtreeNodes.countP countedBranchNode
      ∧ 1 ≤ CyclomaticComplexityCalculator.process t := by
  have h : CyclomaticComplexityCalculator.process t
      = 1 + t.subtreeNodes.countP countedBranchNode := by
    unfold CyclomaticComplexityCalculator.process
    rw [foldl_ifCount]
    congr 1
    exact List.countP_congr
      (fun n _ => by rw [isComplexityIncreasingNode_eq_countedBranchNode])
  exact ⟨h, by omega⟩

/-! ## C5: metrics of an empty function body -/

/-- C5 counterexample: over an empty function body the complexity is 1 and
the logical-line count is 0, but the maintainability index at volume 0,
complexity 1, LOC 0 is not 100: the 0.23 * complexity term is subtracted
even though both logarithms flatten to 0. -/
theorem emptyBody_maintainability_ne_100 :
    CyclomaticComplexityCalculator.process (Node.blockStatement []) = 1
      ∧ FunctionAnalyzer.countLogicalLinesOfCode (Node.blockStatement []) = 0
      ∧ calculateMaintainabilityIndex 0 1 0 ≠ 100 := by
  refine ⟨by decide, by decide, ?_⟩
  unfold calculateMaintainabilityIndex
  norm_num

/-- C5 amended: for an empty function body the complexity is 1, the
logical-line count is 0, and the maintainability index is exactly
(171 - 0.23) * 100 / 171 = 17077/171, about 99.87. -/
theorem emptyBody_metrics_exact :
    CyclomaticComplexityCalculator.process (Node.blockStatement []) = 1
      ∧ FunctionAnalyzer.countLogicalLinesOfCode (Node.blockStatement []) = 0
      ∧ calculateMaintainabilityIndex 0 1 0 = 17077 / 171 := by
  refine ⟨by decide, by decide, ?_⟩
  unfold calculateMaintainabilityIndex
  norm_num

/-! ## C9: parse failure yields the zero analysis -/

/-- C9: whenever parsing fails, analyzeFile returns (it never rethrows)
the empty analysis: every file metric is 0 and the function list is
empty. -/
theorem parseFailure_zero_analysis (e : String) (fuel : Nat) :
    FileMetricsAnalyzer.analyzeFile (Except.error e) fuel
        = some FileMetricsAnalyzer.createEmptyAnalysis
      ∧ FileMetricsAnalyzer.createEmptyAnalysis.fileMetrics.linesOfCode = 0
      ∧ FileMetricsAnalyzer.createEmptyAnalysis.fileMetrics.cyclomaticComplexity = 0
      ∧ FileMetricsAnalyzer.createEmptyAnalysis.fileMetrics.maintainabilityIndex = 0
      ∧ FileMetricsAnalyzer.createEmptyAnalysis.fileMetrics.classCount = 0
      ∧ FileMetricsAnalyzer.createEmptyAnalysis.fileMetrics.methodCount = 0
      ∧ FileMetricsAnalyzer.createEmptyAnalysis.fileMetrics.averageMethodComplexity = 0
      ∧ FileMetricsAnalyzer.createEmptyAnalysis.fileMetrics.depthOfInheritance = 0
      ∧ FileMetricsAnalyzer.createEmptyAnalysis.functions = [] :=
  ⟨rfl, rfl, rfl, rfl, rfl, rfl, rfl, rfl, rfl⟩

/-! ## C3: double counting in the logical-line counter -/

/-- C3 evaluation at the failing input program [function f() { return 1; }]:
the returned count is 3, because the return statement contributes once
through the function-body sub-count (llocVisit of the declaration is 2)
and once through its own traversal visit (llocVisit of the return is 1);
a count of at most one per node would give 2. -/
theorem lloc_double_counts_body_statement :
    FunctionAnalyzer.countLogicalLinesOfCode
        (Node.program [Node.functionDeclaration (some (Node.identifier "f")) []
          (Node.blockStatement [Node.returnStatement (some (Node.literal "1"))])
          (some ⟨1, 1⟩)]) = 3
      ∧ FunctionAnalyzer.llocVisit
          (Node.functionDeclaration (some (Node.identifier "f")) []
            (Node.blockStatement [Node.returnStatement (some (Node.literal "1"))])
            (some ⟨1, 1⟩)) = 2
      ∧ FunctionAnalyzer.llocVisit
          (Node.returnStatement (some (Node.literal "1"))) = 1 := by
  refine ⟨by decide, by decide, by decide⟩

/-! ## Sorting lemmas for C8 -/

theorem mem_insertByStartLine (x a : FunctionAnalysis) :
    ∀ (l : List FunctionAnalysis),
      x ∈ FunctionAnalyzer.insertByStartLine a l ↔ x = a ∨ x ∈ l
  | [] => by simp [FunctionAnalyzer.insertByStartLine]
  | b :: l => by
      rw [FunctionAnalyzer.insertByStartLine]
      split
      · simp only [List.mem_cons, mem_insertByStartLine x a l]
        tauto
      · simp only [List.mem_cons]

theorem sorted_insertByStartLine (a : FunctionAnalysis) :
    ∀ (l : List FunctionAnalysis),
      l.Pairwise (fun x y => x.startLine ≤ y.startLine) →
      (FunctionAnalyzer.insertByStartLine a l).Pairwise
        (fun x y => x.startLine ≤ y.startLine)
  | [], _ => by simp [FunctionAnalyzer.insertByStartLine]
  | b :: l, h => by
      rw [FunctionAnalyzer.insertByStartLine]
      rcases List.pairwise_cons.mp h with ⟨hb, hl⟩
      split
      · rename_i hc
        refine List.pairwise_cons.mpr ⟨?_, sorted_insertByStartLine a l hl⟩
        intro x hx
        rcases (mem_insertByStartLine x a l).mp hx with hxa | hxl
        · subst hxa; omega
        · exact hb x hxl
      · rename_i hc
        refine List.pairwise_cons.mpr ⟨?_, h⟩
        intro x hx
        rcases List.mem_cons.mp hx with hxb | hxl
        · subst hxb; omega
        · have := hb x hxl; omega

theorem filter_insertByStartLine_eq (a : FunctionAnalysis) :
    ∀ (l : List FunctionAnalysis),
      (FunctionAnalyzer.insertByStartLine a l).filter
          (fun b => b.startLine == a.startLine)
        = a :: l.filter (fun b => b.startLine == a.startLine)
  | [] => by simp [FunctionAnalyzer.insertByStartLine]
  | b :: l => by
      rw [FunctionAnalyzer.insertByStartLine]
      split
      · rename_i hc
        have hbne : (b.startLine == a.startLine) = false := by
          simp only [beq_eq_false_iff_ne, ne_eq]
          omega
        rw [List.filter_cons, List.filter_cons, hbne]
        simp only [Bool.false_eq_true, if_false]
        exact filter_insertByStartLine_eq a l
      · rw [List.filter_cons]
        simp

theorem filter_insertByStartLine_ne (a : FunctionAnalysis) (k : Nat)
    (hak : a.startLine ≠ k) :
    ∀ (l : List FunctionAnalysis),
      (FunctionAnalyzer.insertByStartLine a l).filter (fun b => b.startLine == k)
        = l.filter (fun b => b.startLine == k)
  | [] => by simp [FunctionAnalyzer.insertByStartLine, hak]
  | b :: l => by
      rw [FunctionAnalyzer.insertByStartLine]
      split
      · rw [List.filter_cons, List.filter_cons,
          filter_insertByStartLine_ne a k hak l]
      · rw [List.filter_cons, List.filter_cons]
        have : (a.startLine == k) = false := by
          simp only [beq_eq_false_iff_ne, ne_eq]; exact hak
        rw [this]
        simp

theorem sorted_sortByStartLine :
    ∀ (l : List FunctionAnalysis),
      (FunctionAnalyzer.sortByStartLine l).Pairwise
        (fun x y => x.startLine ≤ y.startLine)
  | [] => by simp [FunctionAnalyzer.sortByStartLine]
  | a :: l =>
      sorted_insertByStartLine a _ (sorted_sortByStartLine l)

theorem filter_sortByStartLine (k : Nat) :
    ∀ (l : List FunctionAnalysis),
      (FunctionAnalyzer.sortByStartLine l).filter (fun b => b.startLine == k)
        = l.filter (fun b => b.startLine == k)
  | [] => rfl
  | a :: l => by
      show (FunctionAnalyzer.insertByStartLine a
          (FunctionAnalyzer.sortByStartLine l)).filter _ = _
      by_cases hak : a.startLine = k
      · subst hak
        rw [filter_insertByStartLine_eq, filter_sortByStartLine _ l,
          List.filter_cons]
        simp
      · rw [filter_insertByStartLine_ne a k hak,
          filter_sortByStartLine k l, List.filter_cons]
        have : (a.startLine == k) = false := by
          simp only [beq_eq_false_iff_ne, ne_eq]; exact hak
        rw [this]
        simp

/-! ## C8: result ordering and method count -/

/-- C8: every FileAnalysis returned by the aggregator has its functions
sorted ascending by startLine, methodCount equal to the length of the
function list, and, on a parsed tree, equal start lines keep their
original discovery order: filtering the result at any start line gives
exactly the discovery-order emission filtered at that start line. -/
theorem fileAnalysis_sorted_and_counted (pr : Except String Node) (fuel : Nat)
    (r : FileAnalysis)
    (h : FileMetricsAnalyzer.analyzeFile pr fuel = some r) :
    r.functions.Pairwise (fun a b => a.startLine ≤ b.startLine)
      ∧ r.fileMetrics.methodCount = r.functions.length
      ∧ ∀ t, pr = Except.ok t → ∀ k,
          r.functions.filter (fun f => f.startLine == k)
            = ((FunctionAnalyzer.collectFunctions none false t).map
                FileMetricsAnalyzer.toFunctionInfo).filter
                (fun f => f.startLine == k) := by
  match pr with
  | .error e =>
      rw [FileMetricsAnalyzer.analyzeFile] at h
      injection h with h
      subst h
      refine ⟨by simp [FileMetricsAnalyzer.createEmptyAnalysis], rfl, ?_⟩
      intro t ht
      cases ht
  | .ok t =>
      rw [FileMetricsAnalyzer.analyzeFile, FileMetricsAnalyzer.analyzeFileAST] at h
      rcases Option.map_eq_some'.mp h with ⟨d, _, hr⟩
      subst hr
      refine ⟨?_, ?_, ?_⟩
      · show ((FunctionAnalyzer.analyzeFunctions t).map
            FileMetricsAnalyzer.toFunctionInfo).Pairwise _
        rw [List.pairwise_map]
        exact sorted_sortByStartLine _
      · show (FunctionAnalyzer.analyzeFunctions t).length
            = ((FunctionAnalyzer.analyzeFunctions t).map
                FileMetricsAnalyzer.toFunctionInfo).length
        rw [List.length_map]
      · intro t2 ht2 k
        injection ht2 with ht2
        subst ht2
        show ((FunctionAnalyzer.analyzeFunctions t).map
            FileMetricsAnalyzer.toFunctionInfo).filter _ = _
        rw [List.filter_map, List.filter_map]
        congr 1
        exact filter_sortByStartLine k _

/-- C8 witness at a concrete parse result. -/
theorem fileAnalysis_sorted_and_counted_witness :
    (FileMetricsAnalyzer.analyzeParsed (Node.program []) 0).functions.Pairwise
        (fun a b => a.startLine ≤ b.startLine)
      ∧ (FileMetricsAnalyzer.analyzeParsed (Node.program []) 0).fileMetrics.methodCount
          = (FileMetricsAnalyzer.analyzeParsed (Node.program []) 0).functions.length
      ∧ ∀ t, (Except.ok (Node.program []) : Except String Node) = Except.ok t → ∀ k,
          (FileMetricsAnalyzer.analyzeParsed (Node.program []) 0).functions.filter
              (fun f => f.startLine == k)
            = ((FunctionAnalyzer.collectFunctions none false t).map
                FileMetricsAnalyzer.toFunctionInfo).filter
                (fun f => f.startLine == k) :=
  fileAnalysis_sorted_and_counted (Except.ok (Node.program [])) 1
    (FileMetricsAnalyzer.analyzeParsed (Node.program []) 0) rfl

/-! ## C1: average method complexity -/

theorem foldl_add_map (f : FunctionAnalysis → ℝ) :
    ∀ (l : List FunctionAnalysis) (i : ℝ),
      l.foldl (fun s x => s + f x) i = i + (l.map f).sum
  | [], i => by simp
  | x :: l, i => by
      simp only [List.foldl_cons, List.map_cons, List.sum_cons,
        foldl_add_map f l]
      ring

/-- C1 counterexample: on a file holding one empty function and one
top-level if statement, the returned averageMethodComplexity times
methodCount is 1 (the one function's own complexity) while the file-level
cyclomatic complexity is 2, so the claimed identity
averageMethodComplexity * methodCount == fileMetrics.cyclomaticComplexity
fails. -/
theorem averageTimesCount_ne_fileComplexity :
    (FileMetricsAnalyzer.analyzeFile (Except.ok exC1tree) 1).map
        (fun r => (r.fileMetrics.averageMethodComplexity
            * (r.fileMetrics.methodCount : ℝ),
          (r.fileMetrics.cyclomaticComplexity : ℝ)))
      = some (1, 2)
      ∧ (1 : ℝ) ≠ 2 := by
  refine ⟨?_, by norm_num⟩
  have h1 : FileMetricsAnalyzer.analyzeFile (Except.ok exC1tree) 1
      = some (FileMetricsAnalyzer.analyzeParsed exC1tree 0) := rfl
  have hfs : FunctionAnalyzer.analyzeFunctions exC1tree
      = [{ name := "f", type := .function, startLine := 1, endLine := 1,
           metrics := FunctionAnalyzer.calculate exC1fun }] := rfl
  have hc1 : (FunctionAnalyzer.calculate exC1fun).metrics.cyclomaticComplexity
      = 1 := by decide
  have hc2 : CyclomaticComplexityCalculator.process exC1tree = 2 := by decide
  rw [h1, Option.map_some']
  simp only [FileMetricsAnalyzer.analyzeParsed, hfs, hc1, hc2]
  norm_num [hc1]

/-- C1 amended: in every returned file analysis, averageMethodComplexity
times methodCount equals the sum of the discovered functions' own
cyclomatic complexities (their mean, 0 when there are none) — not the
file-level complexity. -/
theorem averageTimesCount_eq_sum_functionComplexities (t : Node) (d : Nat) :
    (FileMetricsAnalyzer.analyzeParsed t d).fileMetrics.averageMethodComplexity
        * ((FileMetricsAnalyzer.analyzeParsed t d).fileMetrics.methodCount : ℝ)
      = ((FileMetricsAnalyzer.analyzeParsed t d).functions.map
          (fun f => (f.metrics.cyclomaticComplexity : ℝ))).sum := by
  simp only [FileMetricsAnalyzer.analyzeParsed, List.map_map]
  by_cases h : (FunctionAnalyzer.analyzeFunctions t).length > 0
  · rw [if_pos h, foldl_add_map, zero_add]
    have hcomp : ((fun f : FunctionInfo => (f.metrics.cyclomaticComplexity : ℝ))
          ∘ FileMetricsAnalyzer.toFunctionInfo)
        = fun f : FunctionAnalysis =>
            (f.metrics.metrics.cyclomaticComplexity : ℝ) := rfl
    rw [hcomp]
    have hne : ((FunctionAnalyzer.analyzeFunctions t).length : ℝ) ≠ 0 := by
      exact_mod_cast Nat.pos_iff_ne_zero.mp h
    field_simp
  · rw [if_neg h]
    have : FunctionAnalyzer.analyzeFunctions t = [] :=
      List.length_eq_zero.mp (Nat.eq_zero_of_not_pos h)
    rw [this]
    simp

/-! ## C2: the relaxation loop never converges on a cyclic graph -/

theorem relaxEdge_exC2_AB (a : Nat) :
    FileMetricsAnalyzer.relaxEdge [("A", a + 1), ("B", a + 2)] ("A", "B")
      = ([("A", a + 3), ("B", a + 2)], true) := by
  simp only [FileMetricsAnalyzer.relaxEdge, mapGet, mapSet]
  norm_num [List.find?]
  simp

theorem relaxEdge_exC2_BA (a : Nat) :
    FileMetricsAnalyzer.relaxEdge [("A", a + 3), ("B", a + 2)] ("B", "A")
      = ([("A", a + 3), ("B", a + 4)], true) := by
  simp only [FileMetricsAnalyzer.relaxEdge, mapGet, mapSet]
  norm_num [List.find?]
  simp

theorem relaxPass_exC2 (a : Nat) :
    FileMetricsAnalyzer.relaxPass [("A", "B"), ("B", "A")]
        [("A", a + 1), ("B", a + 2)]
      = ([("A", a + 3), ("B", a + 4)], true) := by
  simp only [FileMetricsAnalyzer.relaxPass, List.foldl_cons, List.foldl_nil,
    relaxEdge_exC2_AB a, relaxEdge_exC2_BA a, Bool.false_or, Bool.or_true]

theorem relaxPass_exC2_init :
    FileMetricsAnalyzer.relaxPass [("A", "B"), ("B", "A")] [("A", 1), ("B", 1)]
      = ([("A", 2), ("B", 3)], true) := by decide

theorem runRelax_exC2 :
    ∀ (fuel a : Nat),
      FileMetricsAnalyzer.runRelax [("A", "B"), ("B", "A")] fuel
        [("A", a + 1), ("B", a + 2)] = none
  | 0, a => rfl
  | fuel + 1, a => by
      rw [FileMetricsAnalyzer.runRelax]
      simp only [relaxPass_exC2 a, if_true]
      exact runRelax_exC2 fuel (a + 2)

theorem runRelax_exC2_init :
    ∀ (fuel : Nat),
      FileMetricsAnalyzer.runRelax [("A", "B"), ("B", "A")] fuel
        [("A", 1), ("B", 1)] = none
  | 0 => rfl
  | fuel + 1 => by
      rw [FileMetricsAnalyzer.runRelax]
      simp only [relaxPass_exC2_init, if_true]
      exact runRelax_exC2 fuel 1

/-- C2: on two classes extending each other, every relaxation pass still
reports a change (the depths grow without bound), so calculateInheritanceDepth
does not converge within ANY number of passes: the source's unbounded
do..while loop never terminates, no bound is enforced and no structural
error is reported. -/
theorem inheritanceDepth_cyclic_never_converges (fuel : Nat) :
    FileMetricsAnalyzer.calculateInheritanceDepth exC2tree fuel = none := by
  have hcol : FileMetricsAnalyzer.collectInheritance exC2tree
      = ⟨[("A", 1), ("B", 1)], [("A", "B"), ("B", "A")]⟩ := by decide
  unfold FileMetricsAnalyzer.calculateInheritanceDepth
  rw [hcol]
  simp only [runRelax_exC2_init fuel, Option.map_none']

/-! ## Map lemmas for the inheritance analysis -/

theorem mapGet_cons (p : String × Nat) (m : DepthMap) (k : String) :
    mapGet (p :: m) k = if p.1 == k then some p.2 else mapGet m k := by
  unfold mapGet
  by_cases h : p.1 == k
  · rw [@List.find?_cons_of_pos _ (fun q => q.1 == k) p m h, if_pos h]
    rfl
  · rw [@List.find?_cons_of_neg _ (fun q => q.1 == k) p m h, if_neg h]

theorem mapGet_setMap_self (k : String) (v : Nat) :
    ∀ (m : DepthMap), m.any (fun p => p.1 == k) = true →
      mapGet (m.map (fun p => if p.1 == k then (k, v) else p)) k = some v
  | p :: m, h => by
      simp only [List.any_cons, Bool.or_eq_true] at h
      by_cases hp : p.1 == k
      · rw [List.map_cons, if_pos hp, mapGet_cons]
        simp
      · rw [List.map_cons, if_neg hp, mapGet_cons, if_neg hp]
        rcases h with h | h
        · exact absurd h hp
        · exact mapGet_setMap_self k v m h

theorem mapGet_append_self (k : String) (v : Nat) :
    ∀ (m : DepthMap), m.any (fun p => p.1 == k) = false →
      mapGet (m ++ [(k, v)]) k = some v
  | [], _ => by
      rw [List.nil_append, mapGet_cons]
      simp
  | p :: m, h => by
      simp only [List.any_cons, Bool.or_eq_false_iff] at h
      rw [List.cons_append, mapGet_cons, if_neg (by simp [h.1])]
      exact mapGet_append_self k v m h.2

/-- Map.set stores the value at the key. -/
theorem mapGet_mapSet_self (m : DepthMap) (k : String) (v : Nat) :
    mapGet (mapSet m k v) k = some v := by
  unfold mapSet
  split
  · exact mapGet_setMap_self k v m (by assumption)
  · rename_i hany
    have hb : m.any (fun p => p.1 == k) = false := by
      cases hE : m.any (fun p => p.1 == k)
      · rfl
      · exact absurd hE hany
    exact mapGet_append_self k v m hb

theorem mapGet_setMap_ne (k : String) (v : Nat) (x : String) (hx : x ≠ k) :
    ∀ (m : DepthMap),
      mapGet (m.map (fun p => if p.1 == k then (k, v) else p)) x = mapGet m x
  | [] => rfl
  | p :: m => by
      have hkx : ((k : String) == x) = false := by
        simp only [beq_eq_false_iff_ne, ne_eq]
        exact fun h => hx h.symm
      by_cases hp : p.1 == k
      · have hpx : (p.1 == x) = false := by
          have hpk : p.1 = k := by simpa using hp
          rw [hpk]
          exact hkx
        rw [List.map_cons, if_pos hp, mapGet_cons, mapGet_cons]
        simp only [hpx, hkx, Bool.false_eq_true, if_false]
        exact mapGet_setMap_ne k v x hx m
      · rw [List.map_cons, if_neg hp, mapGet_cons, mapGet_cons]
        by_cases hpx : p.1 == x
        · rw [if_pos hpx, if_pos hpx]
        · rw [if_neg hpx, if_neg hpx]
          exact mapGet_setMap_ne k v x hx m

theorem mapGet_append_ne (k : String) (v : Nat) (x : String) (hx : x ≠ k) :
    ∀ (m : DepthMap), mapGet (m ++ [(k, v)]) x = mapGet m x
  | [] => by
      have hkx : ((k : String) == x) = false := by
        simp only [beq_eq_false_iff_ne, ne_eq]
        exact fun h => hx h.symm
      rw [List.nil_append, mapGet_cons]
      simp only [hkx, Bool.false_eq_true, if_false]
  | p :: m => by
      rw [List.cons_append, mapGet_cons, mapGet_cons]
      by_cases hpx : p.1 == x
      · rw [if_pos hpx, if_pos hpx]
      · rw [if_neg hpx, if_neg hpx]
        exact mapGet_append_ne k v x hx m

/-- Map.set leaves every other key unchanged. -/
theorem mapGet_mapSet_ne (m : DepthMap) (k : String) (v : Nat) (x : String)
    (hx : x ≠ k) : mapGet (mapSet m k v) x = mapGet m x := by
  unfold mapSet
  split
  · exact mapGet_setMap_ne k v x hx m
  · exact mapGet_append_ne k v x hx m

theorem mapGet_mapSet_ne_none (m : DepthMap) (k : String) (v : Nat)
    (x : String) (hx : mapGet m x ≠ none) :
    mapGet (mapSet m k v) x ≠ none := by
  by_cases hxk : x = k
  · subst hxk
    rw [mapGet_mapSet_self]
    simp
  · rw [mapGet_mapSet_ne m k v x hxk]
    exact hx

/-! ## Inheritance collection and relaxation invariants (C10) -/

/-- Any new inheritance edge pushed at a node has the node's own type
name as its child. -/
theorem collectVisit_preserves_declared (st : FileMetricsAnalyzer.InheritanceInfo)
    (n : Node)
    (h : ∀ e ∈ st.edges, mapGet st.depths e.1 ≠ none) :
    ∀ e ∈ (FileMetricsAnalyzer.collectVisit st n).edges,
      mapGet (FileMetricsAnalyzer.collectVisit st n).depths e.1 ≠ none := by
  unfold FileMetricsAnalyzer.collectVisit
  cases hty : FileMetricsAnalyzer.getTypeIdentifier n with
  | none => exact h
  | some ty =>
      intro e he
      simp only [List.mem_append] at he
      rcases he with ((he | he) | he) | he
      · exact mapGet_mapSet_ne_none _ _ _ _ (h e he)
      · have : e.1 = ty := by
          rcases hs : FileMetricsAnalyzer.getSuperclassIdentifier n with _ | s
          · rw [hs] at he
            simp at he
          · rw [hs] at he
            simp only [List.mem_singleton] at he
            rw [he]
        rw [this, mapGet_mapSet_self]
        simp
      · rcases List.mem_map.mp he with ⟨i, _, hei⟩
        rw [← hei]
        rw [mapGet_mapSet_self]
        simp
      · rcases List.mem_map.mp he with ⟨i, _, hei⟩
        rw [← hei]
        rw [mapGet_mapSet_self]
        simp

/-- Every collected inheritance edge has a declared child: its child key
is present in the collected depth map. -/
theorem collect_edges_declared_aux :
    ∀ (l : List Node) (st : FileMetricsAnalyzer.InheritanceInfo),
      (∀ e ∈ st.edges, mapGet st.depths e.1 ≠ none) →
      ∀ e ∈ (l.foldl FileMetricsAnalyzer.collectVisit st).edges,
        mapGet (l.foldl FileMetricsAnalyzer.collectVisit st).depths e.1 ≠ none
  | [], _, h => h
  | n :: l, st, h => by
      rw [List.foldl_cons]
      exact collect_edges_declared_aux l _ (collectVisit_preserves_declared st n h)

theorem collect_edges_declared (t : Node) :
    ∀ e ∈ (FileMetricsAnalyzer.collectInheritance t).edges,
      mapGet (FileMetricsAnalyzer.collectInheritance t).depths e.1 ≠ none :=
  collect_edges_declared_aux (Node.subtreeNodes t) ⟨[], []⟩ (by simp)

/-- A relaxation step that reports no change leaves the map untouched. -/
theorem relaxEdge_false (m : DepthMap) (e : String × String)
    (h : (FileMetricsAnalyzer.relaxEdge m e).2 = false) :
    (FileMetricsAnalyzer.relaxEdge m e).1 = m := by
  simp only [FileMetricsAnalyzer.relaxEdge] at h ⊢
  by_cases hc : (mapGet m e.2).getD 1 + 1 > (mapGet m e.1).getD 1
  · rw [if_pos hc] at h
    simp at h
  · rw [if_neg hc]

/-- The or-accumulated changed flag of the pass fold is monotone. -/
theorem relaxFold_flag_mono :
    ∀ (es : List (String × String)) (acc : DepthMap × Bool), acc.2 = true →
      (es.foldl (fun acc e =>
        let r := FileMetricsAnalyzer.relaxEdge acc.1 e
        (r.1, acc.2 || r.2)) acc).2 = true
  | [], _, h => h
  | e :: es, acc, h => by
      rw [List.foldl_cons]
      exact relaxFold_flag_mono es _ (by simp [h])

/-- A pass that reports no change relaxed no edge and returned its input
map. -/
theorem relaxPass_false :
    ∀ (es : List (String × String)) (m : DepthMap),
      (FileMetricsAnalyzer.relaxPass es m).2 = false →
      (FileMetricsAnalyzer.relaxPass es m).1 = m
        ∧ ∀ e ∈ es, (FileMetricsAnalyzer.relaxEdge m e).2 = false
  | [], m, _ => ⟨rfl, by simp⟩
  | e :: es, m, h => by
      unfold FileMetricsAnalyzer.relaxPass at h
      rw [List.foldl_cons] at h
      simp only [Bool.false_or] at h
      have hflag : (FileMetricsAnalyzer.relaxEdge m e).2 = false := by
        cases hE : (FileMetricsAnalyzer.relaxEdge m e).2
        · rfl
        · have hmono := relaxFold_flag_mono es
            ((FileMetricsAnalyzer.relaxEdge m e).1,
             (FileMetricsAnalyzer.relaxEdge m e).2) (by rw [hE])
          rw [hmono] at h
          exact absurd h (by decide)
      have hmap := relaxEdge_false m e hflag
      rw [hmap, hflag] at h
      have h2 : (FileMetricsAnalyzer.relaxPass es m).2 = false := h
      rcases relaxPass_false es m h2 with ⟨h1, hall⟩
      constructor
      · unfold FileMetricsAnalyzer.relaxPass
        rw [List.foldl_cons]
        simp only [Bool.false_or]
        rw [hmap, hflag]
        exact h1
      · intro e2 he2
        rcases List.mem_cons.mp he2 with he2 | he2
        · rw [he2]
          exact hflag
        · exact hall e2 he2

/-- The do..while loop, run from a map satisfying a pass-preserved
invariant, stops (when it stops) at a map satisfying the invariant on
which the next pass reports no change. -/
theorem runRelax_inv (es : List (String × String)) (Inv : DepthMap → Prop)
    (hpres : ∀ m, Inv m → Inv (FileMetricsAnalyzer.relaxPass es m).1) :
    ∀ (fuel : Nat) (m0 m : DepthMap),
      FileMetricsAnalyzer.runRelax es fuel m0 = some m → Inv m0 →
      Inv m ∧ (FileMetricsAnalyzer.relaxPass es m).2 = false
  | 0, m0, m, h, _ => by cases h
  | fuel + 1, m0, m, h, hinv => by
      rw [FileMetricsAnalyzer.runRelax] at h
      cases hc : (FileMetricsAnalyzer.relaxPass es m0).2
      · rw [hc] at h
        simp only [Bool.false_eq_true, if_false, Option.some.injEq] at h
        have hm0 : (FileMetricsAnalyzer.relaxPass es m0).1 = m0 :=
          (relaxPass_false es m0 hc).1
        rw [hm0] at h
        subst h
        exact ⟨hinv, hc⟩
      · rw [hc] at h
        simp only [if_true] at h
        exact runRelax_inv es Inv hpres fuel _ m h (hpres m0 hinv)

/-- An invariant preserved by every edge relaxation of the list is
preserved by the whole pass fold. -/
theorem relaxFold_inv (Inv : DepthMap → Prop) :
    ∀ (es : List (String × String)),
      (∀ m e, e ∈ es → Inv m → Inv (FileMetricsAnalyzer.relaxEdge m e).1) →
      ∀ (acc : DepthMap × Bool), Inv acc.1 →
      Inv (es.foldl (fun acc e =>
        let r := FileMetricsAnalyzer.relaxEdge acc.1 e
        (r.1, acc.2 || r.2)) acc).1
  | [], _, _, h => h
  | e :: es, hstep, acc, h => by
      rw [List.foldl_cons]
      exact relaxFold_inv Inv es
        (fun m e2 he2 => hstep m e2 (List.mem_cons_of_mem _ he2)) _
        (hstep acc.1 e (List.mem_cons_self _ _) h)

/-! ## C10: a class with an undeclared base gets depth exactly 2 -/

theorem foldl_max_le_init : ∀ (l : List Nat) (i : Nat), i ≤ l.foldl max i
  | [], _ => le_refl _
  | a :: l, i => le_trans (le_max_left i a) (foldl_max_le_init l (max i a))

theorem le_foldl_max : ∀ (l : List Nat) (i a : Nat), a ∈ l → a ≤ l.foldl max i
  | b :: l, i, a, h => by
      rw [List.foldl_cons]
      rcases List.mem_cons.mp h with h | h
      · subst h
        exact le_trans (le_max_right i a) (foldl_max_le_init l (max i a))
      · exact le_foldl_max l (max i b) a h

/-- C10: a named class whose superclass identifier is bound by no
declaration of the tree, and that has no other inheritance edge, ends at
depth exactly 2 in every converging run of the relaxation, and the
resulting maxInheritanceDepth is at least 2. -/
theorem undeclaredBase_depth_two (t : Node) (X P : String)
    (hX : mapGet (FileMetricsAnalyzer.collectInheritance t).depths X = some 1)
    (hP : mapGet (FileMetricsAnalyzer.collectInheritance t).depths P = none)
    (hXP : (X, P) ∈ (FileMetricsAnalyzer.collectInheritance t).edges)
    (honly : ∀ e ∈ (FileMetricsAnalyzer.collectInheritance t).edges,
        e.1 = X → e.2 = P) :
    (∀ fuel m,
        FileMetricsAnalyzer.runRelax
            (FileMetricsAnalyzer.collectInheritance t).edges fuel
            (FileMetricsAnalyzer.collectInheritance t).depths = some m →
        mapGet m X = some 2)
    ∧ (∀ fuel d,
        FileMetricsAnalyzer.calculateInheritanceDepth t fuel = some d →
        2 ≤ d) := by
  have hPnotchild : ∀ e ∈ (FileMetricsAnalyzer.collectInheritance t).edges,
      e.1 ≠ P := by
    intro e he hEq
    exact collect_edges_declared t e he (by rw [hEq, hP])
  have hstep : ∀ m e, e ∈ (FileMetricsAnalyzer.collectInheritance t).edges →
      ((mapGet m X = some 1 ∨ mapGet m X = some 2) ∧ mapGet m P = none) →
      ((mapGet (FileMetricsAnalyzer.relaxEdge m e).1 X = some 1
          ∨ mapGet (FileMetricsAnalyzer.relaxEdge m e).1 X = some 2)
        ∧ mapGet (FileMetricsAnalyzer.relaxEdge m e).1 P = none) := by
    intro m e he hInv
    rcases hInv with ⟨hIX, hIP⟩
    simp only [FileMetricsAnalyzer.relaxEdge]
    by_cases hc : (mapGet m e.2).getD 1 + 1 > (mapGet m e.1).getD 1
    · rw [if_pos hc]
      constructor
      · by_cases hx : e.1 = X
        · right
          have hp2 : e.2 = P := honly e he hx
          rw [hx, mapGet_mapSet_self, hp2, hIP]
          rfl
        · rw [mapGet_mapSet_ne m _ _ X (fun h => hx h.symm)]
          exact hIX
      · rw [mapGet_mapSet_ne m _ _ P
          (fun h => hPnotchild e he h.symm)]
        exact hIP
    · rw [if_neg hc]
      exact ⟨hIX, hIP⟩
  have hpres : ∀ m, ((mapGet m X = some 1 ∨ mapGet m X = some 2)
        ∧ mapGet m P = none) →
      ((mapGet (FileMetricsAnalyzer.relaxPass
            (FileMetricsAnalyzer.collectInheritance t).edges m).1 X = some 1
          ∨ mapGet (FileMetricsAnalyzer.relaxPass
            (FileMetricsAnalyzer.collectInheritance t).edges m).1 X = some 2)
        ∧ mapGet (FileMetricsAnalyzer.relaxPass
            (FileMetricsAnalyzer.collectInheritance t).edges m).1 P = none) := by
    intro m hm
    exact relaxFold_inv _ _ hstep (m, false) hm
  have hfix2 : ∀ fuel m,
      FileMetricsAnalyzer.runRelax
          (FileMetricsAnalyzer.collectInheritance t).edges fuel
          (FileMetricsAnalyzer.collectInheritance t).depths = some m →
      mapGet m X = some 2 := by
    intro fuel m hrun
    rcases runRelax_inv _ _ hpres fuel _ m hrun ⟨Or.inl hX, hP⟩
      with ⟨⟨hIX, hIP⟩, hfixed⟩
    rcases relaxPass_false _ m hfixed with ⟨_, hall⟩
    have hXPe := hall (X, P) hXP
    simp only [FileMetricsAnalyzer.relaxEdge] at hXPe
    by_cases hc : (mapGet m P).getD 1 + 1 > (mapGet m X).getD 1
    · rw [if_pos hc] at hXPe
      simp at hXPe
    · rw [hIP] at hc
      simp only [Option.getD_none, not_lt] at hc
      rcases hIX with h1 | h2
      · rw [h1] at hc
        simp at hc
      · exact h2
  refine ⟨hfix2, ?_⟩
  intro fuel d hd
  unfold FileMetricsAnalyzer.calculateInheritanceDepth at hd
  rcases Option.map_eq_some'.mp hd with ⟨m, hrun, hdm⟩
  have hm2 := hfix2 fuel m hrun
  unfold mapGet at hm2
  rcases Option.map_eq_some'.mp hm2 with ⟨p, hfind, hp2⟩
  have hpmem : p ∈ m := List.mem_of_find?_eq_some hfind
  have hlen : m.length > 0 := List.length_pos.mpr (List.ne_nil_of_mem hpmem)
  rw [if_pos hlen] at hdm
  rw [← hdm]
  unfold FileMetricsAnalyzer.maxDepthValue
  have : p.2 ∈ m.map (fun q => q.2) := List.mem_map_of_mem _ hpmem
  have hle := le_foldl_max (m.map (fun q => q.2)) 0 p.2 this
  rw [hp2] at hle
  exact hle

/-- C10 witness: the tree class X extends P with P undeclared; the
relaxation converges in two passes to depth 2 for X and the resulting
depth is at least 2. -/
theorem undeclaredBase_depth_two_witness :
    (∀ fuel m,
        FileMetricsAnalyzer.runRelax
            (FileMetricsAnalyzer.collectInheritance exC10tree).edges fuel
            (FileMetricsAnalyzer.collectInheritance exC10tree).depths = some m →
        mapGet m "X" = some 2)
    ∧ (∀ fuel d,
        FileMetricsAnalyzer.calculateInheritanceDepth exC10tree fuel = some d →
        2 ≤ d) :=
  undeclaredBase_depth_two exC10tree "X" "P" (by decide) (by decide)
    (by decide) (by decide)

/-! ## Function discovery lemmas (C6, C4) -/

namespace FunctionAnalyzer

/-- The root of a subtree with no function-like node is itself not
function-like. -/
theorem isFunctionLike_false_of_subtree {n : Node}
    (h : (Node.subtreeNodes n).any isFunctionLike = false) :
    isFunctionLike n = false := by
  cases n <;>
    simp only [Node.subtreeNodes, List.any_cons, List.any_nil,
      Bool.or_eq_false_iff] at h <;>
    exact h.1

/-- A node that is not function-like emits no unit. -/
theorem processFunction_nil (p : Option Node) (s : Bool) (n : Node)
    (h : isFunctionLike n = false) :
    processFunction p s n = [] := by
  cases n <;> simp_all [processFunction, isFunctionLike, Node.nodeType]

mutual
/-- A subtree with no function-like node emits nothing below its root. -/
theorem collectKids_nil : ∀ (s : Bool) (n : Node),
    (Node.subtreeNodes n).any isFunctionLike = false → collectKids s n = []
  | s, .program body, h => by
      simp only [Node.subtreeNodes, List.any_cons, List.any_append,
        Bool.or_eq_false_iff] at h
      obtain ⟨h0, h1⟩ := h
      simp only [collectKids, collectSeq_nil _ body h1, List.append_nil]
  | s, .identifier name, h => rfl
  | s, .literal value, h => rfl
  | s, .blockStatement body, h => by
      simp only [Node.subtreeNodes, List.any_cons, List.any_append,
        Bool.or_eq_false_iff] at h
      obtain ⟨h0, h1⟩ := h
      simp only [collectKids, collectSeq_nil _ body h1, List.append_nil]
  | s, .expressionStatement expr, h => by
      simp only [Node.subtreeNodes, List.any_cons, List.any_append,
        Bool.or_eq_false_iff] at h
      obtain ⟨h0, h1⟩ := h
      simp only [collectKids, processFunction_nil _ _ _ (isFunctionLike_false_of_subtree h1),
        collectKids_nil false expr h1, List.append_nil]
  | s, .returnStatement argument, h => by
      simp only [Node.subtreeNodes, List.any_cons, List.any_append,
        Bool.or_eq_false_iff] at h
      obtain ⟨h0, h1⟩ := h
      simp only [collectKids, collectOpt_nil _ argument h1, List.append_nil]
  | s, .throwStatement argument, h => by
      simp only [Node.subtreeNodes, List.any_cons, List.any_append,
        Bool.or_eq_false_iff] at h
      obtain ⟨h0, h1⟩ := h
      simp only [collectKids, processFunction_nil _ _ _ (isFunctionLike_false_of_subtree h1),
        collectKids_nil false argument h1, List.append_nil]
  | s, .breakStatement, h => rfl
  | s, .continueStatement, h => rfl
  | s, .ifStatement test consequent alternate, h => by
      simp only [Node.subtreeNodes, List.any_cons, List.any_append,
        Bool.or_eq_false_iff] at h
      obtain ⟨h0, ⟨⟨h1, h2⟩, h3⟩⟩ := h
      simp only [collectKids, processFunction_nil _ _ _ (isFunctionLike_false_of_subtree h1),
        collectKids_nil false test h1,
        processFunction_nil _ _ _ (isFunctionLike_false_of_subtree h2),
        collectKids_nil false consequent h2,
        collectOpt_nil _ alternate h3, List.append_nil]
  | s, .forStatement ini test update body, h => by
      simp only [Node.subtreeNodes, List.any_cons, List.any_append,
        Bool.or_eq_false_iff] at h
      obtain ⟨h0, ⟨⟨⟨h1, h2⟩, h3⟩, h4⟩⟩ := h
      simp only [collectKids, collectOpt_nil _ ini h1,
        collectOpt_nil _ test h2,
        collectOpt_nil _ update h3,
        processFunction_nil _ _ _ (isFunctionLike_false_of_subtree h4),
        collectKids_nil false body h4, List.append_nil]
  | s, .forInStatement left right body, h => by
      simp only [Node.subtreeNodes, List.any_cons, List.any_append,
        Bool.or_eq_false_iff] at h
      obtain ⟨h0, ⟨⟨h1, h2⟩, h3⟩⟩ := h
      simp only [collectKids, processFunction_nil _ _ _ (isFunctionLike_false_of_subtree h1),
        collectKids_nil false left h1,
        processFunction_nil _ _ _ (isFunctionLike_false_of_subtree h2),
        collectKids_nil false right h2,
        processFunction_nil _ _ _ (isFunctionLike_false_of_subtree h3),
        collectKids_nil false body h3, List.append_nil]
  | s, .forOfStatement left right body, h => by
      simp only [Node.subtreeNodes, List.any_cons, List.any_append,
        Bool.or_eq_false_iff] at h
      obtain ⟨h0, ⟨⟨h1, h2⟩, h3⟩⟩ := h
      simp only [collectKids, processFunction_nil _ _ _ (isFunctionLike_false_of_subtree h1),
        collectKids_nil false left h1,
        processFunction_nil _ _ _ (isFunctionLike_false_of_subtree h2),
        collectKids_nil false right h2,
        processFunction_nil _ _ _ (isFunctionLike_false_of_subtree h3),
        collectKids_nil false body h3, List.append_nil]
  | s, .whileStatement test body, h => by
      simp only [Node.subtreeNodes, List.any_cons, List.any_append,
        Bool.or_eq_false_iff] at h
      obtain ⟨h0, ⟨h1, h2⟩⟩ := h
      simp only [collectKids, processFunction_nil _ _ _ (isFunctionLike_false_of_subtree h1),
        collectKids_nil false test h1,
        processFunction_nil _ _ _ (isFunctionLike_false_of_subtree h2),
        collectKids_nil false body h2, List.append_nil]
  | s, .doWhileStatement body test, h => by
      simp only [Node.subtreeNodes, List.any_cons, List.any_append,
        Bool.or_eq_false_iff] at h
      obtain ⟨h0, ⟨h1, h2⟩⟩ := h
      simp only [collectKids, processFunction_nil _ _ _ (isFunctionLike_false_of_subtree h1),
        collectKids_nil false body h1,
        processFunction_nil _ _ _ (isFunctionLike_false_of_subtree h2),
        collectKids_nil false test h2, List.append_nil]
  | s, .switchStatement discriminant cases, h => by
      simp only [Node.subtreeNodes, List.any_cons, List.any_append,
        Bool.or_eq_false_iff] at h
      obtain ⟨h0, ⟨h1, h2⟩⟩ := h
      simp only [collectKids, processFunction_nil _ _ _ (isFunctionLike_false_of_subtree h1),
        collectKids_nil false discriminant h1,
        collectSeq_nil _ cases h2, List.append_nil]
  | s, .switchCase test consequent, h => by
      simp only [Node.subtreeNodes, List.any_cons, List.any_append,
        Bool.or_eq_false_iff] at h
      obtain ⟨h0, ⟨h1, h2⟩⟩ := h
      simp only [collectKids, collectOpt_nil _ test h1,
        collectSeq_nil _ consequent h2, List.append_nil]
  | s, .tryStatement block handler finalizer, h => by
      simp only [Node.subtreeNodes, List.any_cons, List.any_append,
        Bool.or_eq_false_iff] at h
      obtain ⟨h0, ⟨⟨h1, h2⟩, h3⟩⟩ := h
      simp only [collectKids, processFunction_nil _ _ _ (isFunctionLike_false_of_subtree h1),
        collectKids_nil false block h1,
        collectOpt_nil _ handler h2,
        collectOpt_nil _ finalizer h3, List.append_nil]
  | s, .catchClause param body, h => by
      simp only [Node.subtreeNodes, List.any_cons, List.any_append,
        Bool.or_eq_false_iff] at h
      obtain ⟨h0, ⟨h1, h2⟩⟩ := h
      simp only [collectKids, collectOpt_nil _ param h1,
        processFunction_nil _ _ _ (isFunctionLike_false_of_subtree h2),
        collectKids_nil false body h2, List.append_nil]
  | s, .variableDeclaration declarations, h => by
      simp only [Node.subtreeNodes, List.any_cons, List.any_append,
        Bool.or_eq_false_iff] at h
      obtain ⟨h0, h1⟩ := h
      simp only [collectKids, collectSeq_nil _ declarations h1, List.append_nil]
  | s, .variableDeclarator id ini, h => by
      simp only [Node.subtreeNodes, List.any_cons, List.any_append,
        Bool.or_eq_false_iff] at h
      obtain ⟨h0, ⟨h1, h2⟩⟩ := h
      simp only [collectKids, processFunction_nil _ _ _ (isFunctionLike_false_of_subtree h1),
        collectKids_nil false id h1,
        collectOpt_nil _ ini h2, List.append_nil]
  | s, .binaryExpression operator left right, h => by
      simp only [Node.subtreeNodes, List.any_cons, List.any_append,
        Bool.or_eq_false_iff] at h
      obtain ⟨h0, ⟨h1, h2⟩⟩ := h
      simp only [collectKids, processFunction_nil _ _ _ (isFunctionLike_false_of_subtree h1),
        collectKids_nil false left h1,
        processFunction_nil _ _ _ (isFunctionLike_false_of_subtree h2),
        collectKids_nil false right h2, List.append_nil]
  | s, .logicalExpression operator left right, h => by
      simp only [Node.subtreeNodes, List.any_cons, List.any_append,
        Bool.or_eq_false_iff] at h
      obtain ⟨h0, ⟨h1, h2⟩⟩ := h
      simp only [collectKids, processFunction_nil _ _ _ (isFunctionLike_false_of_subtree h1),
        collectKids_nil false left h1,
        processFunction_nil _ _ _ (isFunctionLike_false_of_subtree h2),
        collectKids_nil false right h2, List.append_nil]
  | s, .assignmentExpression operator left right, h => by
      simp only [Node.subtreeNodes, List.any_cons, List.any_append,
        Bool.or_eq_false_iff] at h
      obtain ⟨h0, ⟨h1, h2⟩⟩ := h
      simp only [collectKids, processFunction_nil _ _ _ (isFunctionLike_false_of_subtree h1),
        collectKids_nil false left h1,
        processFunction_nil _ _ _ (isFunctionLike_false_of_subtree h2),
        collectKids_nil false right h2, List.append_nil]
  | s, .updateExpression operator argument, h => by
      simp only [Node.subtreeNodes, List.any_cons, List.any_append,
        Bool.or_eq_false_iff] at h
      obtain ⟨h0, h1⟩ := h
      simp only [collectKids, processFunction_nil _ _ _ (isFunctionLike_false_of_subtree h1),
        collectKids_nil false argument h1, List.append_nil]
  | s, .unaryExpression operator argument, h => by
      simp only [Node.subtreeNodes, List.any_cons, List.any_append,
        Bool.or_eq_false_iff] at h
      obtain ⟨h0, h1⟩ := h
      simp only [collectKids, processFunction_nil _ _ _ (isFunctionLike_false_of_subtree h1),
        collectKids_nil false argument h1, List.append_nil]
  | s, .conditionalExpression test consequent alternate, h => by
      simp only [Node.subtreeNodes, List.any_cons, List.any_append,
        Bool.or_eq_false_iff] at h
      obtain ⟨h0, ⟨⟨h1, h2⟩, h3⟩⟩ := h
      simp only [collectKids, processFunction_nil _ _ _ (isFunctionLike_false_of_subtree h1),
        collectKids_nil false test h1,
        processFunction_nil _ _ _ (isFunctionLike_false_of_subtree h2),
        collectKids_nil false consequent h2,
        processFunction_nil _ _ _ (isFunctionLike_false_of_subtree h3),
        collectKids_nil false alternate h3, List.append_nil]
  | s, .callExpression callee arguments, h => by
      simp only [Node.subtreeNodes, List.any_cons, List.any_append,
        Bool.or_eq_false_iff] at h
      obtain ⟨h0, ⟨h1, h2⟩⟩ := h
      simp only [collectKids, processFunction_nil _ _ _ (isFunctionLike_false_of_subtree h1),
        collectKids_nil false callee h1,
        collectSeq_nil _ arguments h2, List.append_nil]
  | s, .newExpression callee arguments, h => by
      simp only [Node.subtreeNodes, List.any_cons, List.any_append,
        Bool.or_eq_false_iff] at h
      obtain ⟨h0, ⟨h1, h2⟩⟩ := h
      simp only [collectKids, processFunction_nil _ _ _ (isFunctionLike_false_of_subtree h1),
        collectKids_nil false callee h1,
        collectSeq_nil _ arguments h2, List.append_nil]
  | s, .memberExpression object property computed, h => by
      simp only [Node.subtreeNodes, List.any_cons, List.any_append,
        Bool.or_eq_false_iff] at h
      obtain ⟨h0, ⟨h1, h2⟩⟩ := h
      simp only [collectKids, processFunction_nil _ _ _ (isFunctionLike_false_of_subtree h1),
        collectKids_nil false object h1,
        processFunction_nil _ _ _ (isFunctionLike_false_of_subtree h2),
        collectKids_nil false property h2, List.append_nil]
  | s, .functionDeclaration id params body loc, h => by
      exact absurd (isFunctionLike_false_of_subtree h)
        (by simp [isFunctionLike, Node.nodeType])
  | s, .functionExpression id params body loc, h => by
      exact absurd (isFunctionLike_false_of_subtree h)
        (by simp [isFunctionLike, Node.nodeType])
  | s, .arrowFunctionExpression params body loc, h => by
      exact absurd (isFunctionLike_false_of_subtree h)
        (by simp [isFunctionLike, Node.nodeType])
  | s, .methodDefinition key value kind loc, h => by
      exact absurd (isFunctionLike_false_of_subtree h)
        (by simp [isFunctionLike, Node.nodeType])
  | s, .classDeclaration id superClass implementsList body, h => by
      simp only [Node.subtreeNodes, List.any_cons, List.any_append,
        Bool.or_eq_false_iff] at h
      obtain ⟨h0, ⟨⟨⟨h1, h2⟩, h3⟩, h4⟩⟩ := h
      simp only [collectKids, collectOpt_nil _ id h1,
        collectOpt_nil _ superClass h2,
        collectSeq_nil _ implementsList h3,
        processFunction_nil _ _ _ (isFunctionLike_false_of_subtree h4),
        collectKids_nil false body h4, List.append_nil]
  | s, .classExpression id superClass implementsList body, h => by
      simp only [Node.subtreeNodes, List.any_cons, List.any_append,
        Bool.or_eq_false_iff] at h
      obtain ⟨h0, ⟨⟨⟨h1, h2⟩, h3⟩, h4⟩⟩ := h
      simp only [collectKids, collectOpt_nil _ id h1,
        collectOpt_nil _ superClass h2,
        collectSeq_nil _ implementsList h3,
        processFunction_nil _ _ _ (isFunctionLike_false_of_subtree h4),
        collectKids_nil false body h4, List.append_nil]
  | s, .classBody body, h => by
      simp only [Node.subtreeNodes, List.any_cons, List.any_append,
        Bool.or_eq_false_iff] at h
      obtain ⟨h0, h1⟩ := h
      simp only [collectKids, collectSeq_nil _ body h1, List.append_nil]
  | s, .propertyDefinition key value, h => by
      simp only [Node.subtreeNodes, List.any_cons, List.any_append,
        Bool.or_eq_false_iff] at h
      obtain ⟨h0, ⟨h1, h2⟩⟩ := h
      simp only [collectKids, processFunction_nil _ _ _ (isFunctionLike_false_of_subtree h1),
        collectKids_nil false key h1,
        collectOpt_nil _ value h2, List.append_nil]
  | s, .tsParameterProperty parameter, h => by
      simp only [Node.subtreeNodes, List.any_cons, List.any_append,
        Bool.or_eq_false_iff] at h
      obtain ⟨h0, h1⟩ := h
      simp only [collectKids, processFunction_nil _ _ _ (isFunctionLike_false_of_subtree h1),
        collectKids_nil false parameter h1, List.append_nil]
  | s, .tsInterfaceDeclaration id extendsList body, h => by
      simp only [Node.subtreeNodes, List.any_cons, List.any_append,
        Bool.or_eq_false_iff] at h
      obtain ⟨h0, ⟨⟨h1, h2⟩, h3⟩⟩ := h
      simp only [collectKids, collectOpt_nil _ id h1,
        collectSeq_nil _ extendsList h2,
        processFunction_nil _ _ _ (isFunctionLike_false_of_subtree h3),
        collectKids_nil false body h3, List.append_nil]
  | s, .tsInterfaceHeritage expression, h => by
      simp only [Node.subtreeNodes, List.any_cons, List.any_append,
        Bool.or_eq_false_iff] at h
      obtain ⟨h0, h1⟩ := h
      simp only [collectKids, processFunction_nil _ _ _ (isFunctionLike_false_of_subtree h1),
        collectKids_nil false expression h1, List.append_nil]
  | s, .tsClassImplements expression, h => by
      simp only [Node.subtreeNodes, List.any_cons, List.any_append,
        Bool.or_eq_false_iff] at h
      obtain ⟨h0, h1⟩ := h
      simp only [collectKids, processFunction_nil _ _ _ (isFunctionLike_false_of_subtree h1),
        collectKids_nil false expression h1, List.append_nil]
  | s, .tsInterfaceBody body, h => by
      simp only [Node.subtreeNodes, List.any_cons, List.any_append,
        Bool.or_eq_false_iff] at h
      obtain ⟨h0, h1⟩ := h
      simp only [collectKids, collectSeq_nil _ body h1, List.append_nil]

theorem collectSeq_nil : ∀ (p : Node) (l : List Node),
    (Node.subtreeNodesList l).any isFunctionLike = false → collectSeq p l = []
  | p, [], h => rfl
  | p, n :: l, h => by
      simp only [Node.subtreeNodesList, List.any_append,
        Bool.or_eq_false_iff] at h
      obtain ⟨h1, h2⟩ := h
      simp only [collectSeq,
        processFunction_nil _ _ _ (isFunctionLike_false_of_subtree h1),
        collectKids_nil false n h1, collectSeq_nil p l h2, List.append_nil]

theorem collectOpt_nil : ∀ (p : Node) (o : Option Node),
    (Node.subtreeNodesOpt o).any isFunctionLike = false → collectOpt p o = []
  | p, none, h => rfl
  | p, some n, h => by
      simp only [Node.subtreeNodesOpt] at h
      simp only [collectOpt,
        processFunction_nil _ _ _ (isFunctionLike_false_of_subtree h),
        collectKids_nil false n h, List.append_nil]
end

end FunctionAnalyzer

/-- C6: a class with one method yields exactly one discovered unit: a
method named from the key, spanning the method definition's lines, with
metrics computed over the method's function value; the inner function
value is never emitted as a separate unit. -/
theorem singleMethod_class_one_unit (cn k kind : String)
    (params stmts : List Node) (locM locV : SourceSpan)
    (hp : (Node.subtreeNodesList params).any FunctionAnalyzer.isFunctionLike
        = false)
    (hs : (Node.subtreeNodesList stmts).any FunctionAnalyzer.isFunctionLike
        = false) :
    FunctionAnalyzer.analyzeFunctions
        (Node.program [Node.classDeclaration (some (Node.identifier cn)) none []
          (Node.classBody [Node.methodDefinition (Node.identifier k)
            (Node.functionExpression none params (Node.blockStatement stmts)
              (some locV)) kind (some locM)])])
      = [{ name := k
           type := FunctionType.method
           startLine := locM.startLine
           endLine := locM.endLine
           metrics := FunctionAnalyzer.calculate
             (Node.functionExpression none params (Node.blockStatement stmts)
               (some locV)) }] := by
  simp only [FunctionAnalyzer.analyzeFunctions, FunctionAnalyzer.collectFunctions,
    FunctionAnalyzer.collectKids, FunctionAnalyzer.collectSeq,
    FunctionAnalyzer.collectOpt, FunctionAnalyzer.processFunction,
    FunctionAnalyzer.getFunctionName, FunctionAnalyzer.isFunctionLike,
    FunctionAnalyzer.locOf, Node.nodeType,
    FunctionAnalyzer.collectSeq_nil _ params hp,
    FunctionAnalyzer.collectSeq_nil _ stmts hs,
    FunctionAnalyzer.sortByStartLine, FunctionAnalyzer.insertByStartLine,
    List.contains, List.append_nil, List.nil_append, List.foldr]

/-- C6 witness: the concrete class C with one method m. -/
theorem singleMethod_class_one_unit_witness :
    FunctionAnalyzer.analyzeFunctions exC6tree
      = [{ name := "m"
           type := FunctionType.method
           startLine := 2
           endLine := 4
           metrics := FunctionAnalyzer.calculate exC6value }] :=
  singleMethod_class_one_unit "C" "m" "method" [] [] ⟨2, 4⟩ ⟨2, 4⟩
    (by decide) (by decide)

/-! ## C4: per-function metrics cover the whole function node -/

/-- C4 counterexample: for the file containing function f(x) {}, the
discovered unit's Halstead volume is 2 (the name f and the parameter x
both count as operands, giving vocabulary 2 and length 2), while the
Halstead volume of the function's body subtree alone is 0 — so the
per-function metrics are not computed over the body subtree only. -/
theorem functionMetrics_include_name_and_params :
    (FunctionAnalyzer.analyzeFunctions exC4tree).map
        (fun u => u.metrics.details.halstead.volume)
      = [HalsteadMetricsCalculator.process exC4fn]
      ∧ HalsteadMetricsCalculator.process exC4fn = 2
      ∧ HalsteadMetricsCalculator.process (Node.blockStatement []) = 0
      ∧ (2 : ℝ) ≠ 0 := by
  refine ⟨rfl, ?_, ?_, by norm_num⟩
  · have hdata : HalsteadMetricsCalculator.gatherMetrics exC4fn
        = ⟨[], ["f", "x"], 0, 2⟩ := by decide
    unfold HalsteadMetricsCalculator.process
    rw [hdata]
    unfold HalsteadMetricsCalculator.calculateVolume
    norm_num [Real.logb_self_eq_one]
  · have hdata : HalsteadMetricsCalculator.gatherMetrics (Node.blockStatement [])
        = ⟨[], [], 0, 0⟩ := by decide
    unfold HalsteadMetricsCalculator.process
    rw [hdata]
    unfold HalsteadMetricsCalculator.calculateVolume
    norm_num


theorem self_mem_subtreeNodes (n : Node) : n ∈ Node.subtreeNodes n := by
  cases n <;> simp [Node.subtreeNodes]

namespace FunctionAnalyzer

theorem processFunction_emits (p : Option Node) (s : Bool) (n : Node)
    (u : FunctionAnalysis) (hu : u ∈ processFunction p s n) :
    unitFromNode n u := by
  unfold processFunction at hu
  by_cases hs : s = true
  · rw [if_pos hs] at hu
    simp at hu
  · rw [if_neg hs] at hu
    split at hu
    · rename_i key value kind loc
      split at hu
      · rename_i l
        simp only [List.mem_singleton] at hu
        subst hu
        exact Or.inl ⟨key, value, kind, some l, rfl, rfl, rfl⟩
      · simp at hu
    · split at hu
      · rename_i hFL
        split at hu
        · rename_i l
          simp only [List.mem_singleton] at hu
          subst hu
          exact Or.inr ⟨hFL, rfl⟩
        · simp at hu
      · simp at hu

mutual
/-- Every unit emitted below a node is computed by calculate over some
node of the subtree: a method's function value or a whole function-like
node. -/
theorem collectKids_emits : ∀ (s : Bool) (n : Node) (u : FunctionAnalysis),
    u ∈ collectKids s n → ∃ m, m ∈ Node.subtreeNodes n ∧ unitFromNode m u
  | s, .program body, u, hu => by
      simp only [collectKids] at hu
      have h := hu
      rcases collectSeq_emits _ body u h with ⟨m, hm, hshape⟩
      refine ⟨m, ?_, hshape⟩
      simp only [Node.subtreeNodes, List.mem_cons, List.mem_append]
      tauto
  | s, .identifier name, u, hu => by
      simp only [collectKids, List.not_mem_nil] at hu
  | s, .literal value, u, hu => by
      simp only [collectKids, List.not_mem_nil] at hu
  | s, .blockStatement body, u, hu => by
      simp only [collectKids] at hu
      have h := hu
      rcases collectSeq_emits _ body u h with ⟨m, hm, hshape⟩
      refine ⟨m, ?_, hshape⟩
      simp only [Node.subtreeNodes, List.mem_cons, List.mem_append]
      tauto
  | s, .expressionStatement expr, u, hu => by
      simp only [collectKids, List.mem_append] at hu
      rcases hu with (h | h)
      · refine ⟨expr, ?_, processFunction_emits _ _ _ _ h⟩
        have hma := self_mem_subtreeNodes expr
        simp only [Node.subtreeNodes, List.mem_cons, List.mem_append]
        tauto
      · rcases collectKids_emits false expr u h with ⟨m, hm, hshape⟩
        refine ⟨m, ?_, hshape⟩
        simp only [Node.subtreeNodes, List.mem_cons, List.mem_append]
        tauto
  | s, .returnStatement argument, u, hu => by
      simp only [collectKids] at hu
      have h := hu
      rcases collectOpt_emits _ argument u h with ⟨m, hm, hshape⟩
      refine ⟨m, ?_, hshape⟩
      simp only [Node.subtreeNodes, List.mem_cons, List.mem_append]
      tauto
  | s, .throwStatement argument, u, hu => by
      simp only [collectKids, List.mem_append] at hu
      rcases hu with (h | h)
      · refine ⟨argument, ?_, processFunction_emits _ _ _ _ h⟩
        have hma := self_mem_subtreeNodes argument
        simp only [Node.subtreeNodes, List.mem_cons, List.mem_append]
        tauto
      · rcases collectKids_emits false argument u h with ⟨m, hm, hshape⟩
        refine ⟨m, ?_, hshape⟩
        simp only [Node.subtreeNodes, List.mem_cons, List.mem_append]
        tauto
  | s, .breakStatement, u, hu => by
      simp only [collectKids, List.not_mem_nil] at hu
  | s, .continueStatement, u, hu => by
      simp only [collectKids, List.not_mem_nil] at hu
  | s, .ifStatement test consequent alternate, u, hu => by
      simp only [collectKids, List.mem_append] at hu
      rcases hu with ((((h | h) | h) | h) | h)
      · refine ⟨test, ?_, processFunction_emits _ _ _ _ h⟩
        have hma := self_mem_subtreeNodes test
        simp only [Node.subtreeNodes, List.mem_cons, List.mem_append]
        tauto
      · rcases collectKids_emits false test u h with ⟨m, hm, hshape⟩
        refine ⟨m, ?_, hshape⟩
        simp only [Node.subtreeNodes, List.mem_cons, List.mem_append]
        tauto
      · refine ⟨consequent, ?_, processFunction_emits _ _ _ _ h⟩
        have hma := self_mem_subtreeNodes consequent
        simp only [Node.subtreeNodes, List.mem_cons, List.mem_append]
        tauto
      · rcases collectKids_emits false consequent u h with ⟨m, hm, hshape⟩
        refine ⟨m, ?_, hshape⟩
        simp only [Node.subtreeNodes, List.mem_cons, List.mem_append]
        tauto
      · rcases collectOpt_emits _ alternate u h with ⟨m, hm, hshape⟩
        refine ⟨m, ?_, hshape⟩
        simp only [Node.subtreeNodes, List.mem_cons, List.mem_append]
        tauto
  | s, .forStatement ini test update body, u, hu => by
      simp only [collectKids, List.mem_append] at hu
      rcases hu with ((((h | h) | h) | h) | h)
      · rcases collectOpt_emits _ ini u h with ⟨m, hm, hshape⟩
        refine ⟨m, ?_, hshape⟩
        simp only [Node.subtreeNodes, List.mem_cons, List.mem_append]
        tauto
      · rcases collectOpt_emits _ test u h with ⟨m, hm, hshape⟩
        refine ⟨m, ?_, hshape⟩
        simp only [Node.subtreeNodes, List.mem_cons, List.mem_append]
        tauto
      · rcases collectOpt_emits _ update u h with ⟨m, hm, hshape⟩
        refine ⟨m, ?_, hshape⟩
        simp only [Node.subtreeNodes, List.mem_cons, List.mem_append]
        tauto
      · refine ⟨body, ?_, processFunction_emits _ _ _ _ h⟩
        have hma := self_mem_subtreeNodes body
        simp only [Node.subtreeNodes, List.mem_cons, List.mem_append]
        tauto
      · rcases collectKids_emits false body u h with ⟨m, hm, hshape⟩
        refine ⟨m, ?_, hshape⟩
        simp only [Node.subtreeNodes, List.mem_cons, List.mem_append]
        tauto
  | s, .forInStatement left right body, u, hu => by
      simp only [collectKids, List.mem_append] at hu
      rcases hu with (((((h | h) | h) | h) | h) | h)
      · refine ⟨left, ?_, processFunction_emits _ _ _ _ h⟩
        have hma := self_mem_subtreeNodes left
        simp only [Node.subtreeNodes, List.mem_cons, List.mem_append]
        tauto
      · rcases collectKids_emits false left u h with ⟨m, hm, hshape⟩
        refine ⟨m, ?_, hshape⟩
        simp only [Node.subtreeNodes, List.mem_cons, List.mem_append]
        tauto
      · refine ⟨right, ?_, processFunction_emits _ _ _ _ h⟩
        have hma := self_mem_subtreeNodes right
        simp only [Node.subtreeNodes, List.mem_cons, List.mem_append]
        tauto
      · rcases collectKids_emits false right u h with ⟨m, hm, hshape⟩
        refine ⟨m, ?_, hshape⟩
        simp only [Node.subtreeNodes, List.mem_cons, List.mem_append]
        tauto
      · refine ⟨body, ?_, processFunction_emits _ _ _ _ h⟩
        have hma := self_mem_subtreeNodes body
        simp only [Node.subtreeNodes, List.mem_cons, List.mem_append]
        tauto
      · rcases collectKids_emits false body u h with ⟨m, hm, hshape⟩
        refine ⟨m, ?_, hshape⟩
        simp only [Node.subtreeNodes, List.mem_cons, List.mem_append]
        tauto
  | s, .forOfStatement left right body, u, hu => by
      simp only [collectKids, List.mem_append] at hu
      rcases hu with (((((h | h) | h) | h) | h) | h)
      · refine ⟨left, ?_, processFunction_emits _ _ _ _ h⟩
        have hma := self_mem_subtreeNodes left
        simp only [Node.subtreeNodes, List.mem_cons, List.mem_append]
        tauto
      · rcases collectKids_emits false left u h with ⟨m, hm, hshape⟩
        refine ⟨m, ?_, hshape⟩
        simp only [Node.subtreeNodes, List.mem_cons, List.mem_append]
        tauto
      · refine ⟨right, ?_, processFunction_emits _ _ _ _ h⟩
        have hma := self_mem_subtreeNodes right
        simp only [Node.subtreeNodes, List.mem_cons, List.mem_append]
        tauto
      · rcases collectKids_emits false right u h with ⟨m, hm, hshape⟩
        refine ⟨m, ?_, hshape⟩
        simp only [Node.subtreeNodes, List.mem_cons, List.mem_append]
        tauto
      · refine ⟨body, ?_, processFunction_emits _ _ _ _ h⟩
        have hma := self_mem_subtreeNodes body
        simp only [Node.subtreeNodes, List.mem_cons, List.mem_append]
        tauto
      · rcases collectKids_emits false body u h with ⟨m, hm, hshape⟩
        refine ⟨m, ?_, hshape⟩
        simp only [Node.subtreeNodes, List.mem_cons, List.mem_append]
        tauto
  | s, .whileStatement test body, u, hu => by
      simp only [collectKids, List.mem_append] at hu
      rcases hu with (((h | h) | h) | h)
      · refine ⟨test, ?_, processFunction_emits _ _ _ _ h⟩
        have hma := self_mem_subtreeNodes test
        simp only [Node.subtreeNodes, List.mem_cons, List.mem_append]
        tauto
      · rcases collectKids_emits false test u h with ⟨m, hm, hshape⟩
        refine ⟨m, ?_, hshape⟩
        simp only [Node.subtreeNodes, List.mem_cons, List.mem_append]
        tauto
      · refine ⟨body, ?_, processFunction_emits _ _ _ _ h⟩
        have hma := self_mem_subtreeNodes body
        simp only [Node.subtreeNodes, List.mem_cons, List.mem_append]
        tauto
      · rcases collectKids_emits false body u h with ⟨m, hm, hshape⟩
        refine ⟨m, ?_, hshape⟩
        simp only [Node.subtreeNodes, List.mem_cons, List.mem_append]
        tauto
  | s, .doWhileStatement body test, u, hu => by
      simp only [collectKids, List.mem_append] at hu
      rcases hu with (((h | h) | h) | h)
      · refine ⟨body, ?_, processFunction_emits _ _ _ _ h⟩
        have hma := self_mem_subtreeNodes body
        simp only [Node.subtreeNodes, List.mem_cons, List.mem_append]
        tauto
      · rcases collectKids_emits false body u h with ⟨m, hm, hshape⟩
        refine ⟨m, ?_, hshape⟩
        simp only [Node.subtreeNodes, List.mem_cons, List.mem_append]
        tauto
      · refine ⟨test, ?_, processFunction_emits _ _ _ _ h⟩
        have hma := self_mem_subtreeNodes test
        simp only [Node.subtreeNodes, List.mem_cons, List.mem_append]
        tauto
      · rcases collectKids_emits false test u h with ⟨m, hm, hshape⟩
        refine ⟨m, ?_, hshape⟩
        simp only [Node.subtreeNodes, List.mem_cons, List.mem_append]
        tauto
  | s, .switchStatement discriminant cases, u, hu => by
      simp only [collectKids, List.mem_append] at hu
      rcases hu with ((h | h) | h)
      · refine ⟨discriminant, ?_, processFunction_emits _ _ _ _ h⟩
        have hma := self_mem_subtreeNodes discriminant
        simp only [Node.subtreeNodes, List.mem_cons, List.mem_append]
        tauto
      · rcases collectKids_emits false discriminant u h with ⟨m, hm, hshape⟩
        refine ⟨m, ?_, hshape⟩
        simp only [Node.subtreeNodes, List.mem_cons, List.mem_append]
        tauto
      · rcases collectSeq_emits _ cases u h with ⟨m, hm, hshape⟩
        refine ⟨m, ?_, hshape⟩
        simp only [Node.subtreeNodes, List.mem_cons, List.mem_append]
        tauto
  | s, .switchCase test consequent, u, hu => by
      simp only [collectKids, List.mem_append] at hu
      rcases hu with (h | h)
      · rcases collectOpt_emits _ test u h with ⟨m, hm, hshape⟩
        refine ⟨m, ?_, hshape⟩
        simp only [Node.subtreeNodes, List.mem_cons, List.mem_append]
        tauto
      · rcases collectSeq_emits _ consequent u h with ⟨m, hm, hshape⟩
        refine ⟨m, ?_, hshape⟩
        simp only [Node.subtreeNodes, List.mem_cons, List.mem_append]
        tauto
  | s, .tryStatement block handler finalizer, u, hu => by
      simp only [collectKids, List.mem_append] at hu
      rcases hu with (((h | h) | h) | h)
      · refine ⟨block, ?_, processFunction_emits _ _ _ _ h⟩
        have hma := self_mem_subtreeNodes block
        simp only [Node.subtreeNodes, List.mem_cons, List.mem_append]
        tauto
      · rcases collectKids_emits false block u h with ⟨m, hm, hshape⟩
        refine ⟨m, ?_, hshape⟩
        simp only [Node.subtreeNodes, List.mem_cons, List.mem_append]
        tauto
      · rcases collectOpt_emits _ handler u h with ⟨m, hm, hshape⟩
        refine ⟨m, ?_, hshape⟩
        simp only [Node.subtreeNodes, List.mem_cons, List.mem_append]
        tauto
      · rcases collectOpt_emits _ finalizer u h with ⟨m, hm, hshape⟩
        refine ⟨m, ?_, hshape⟩
        simp only [Node.subtreeNodes, List.mem_cons, List.mem_append]
        tauto
  | s, .catchClause param body, u, hu => by
      simp only [collectKids, List.mem_append] at hu
      rcases hu with ((h | h) | h)
      · rcases collectOpt_emits _ param u h with ⟨m, hm, hshape⟩
        refine ⟨m, ?_, hshape⟩
        simp only [Node.subtreeNodes, List.mem_cons, List.mem_append]
        tauto
      · refine ⟨body, ?_, processFunction_emits _ _ _ _ h⟩
        have hma := self_mem_subtreeNodes body
        simp only [Node.subtreeNodes, List.mem_cons, List.mem_append]
        tauto
      · rcases collectKids_emits false body u h with ⟨m, hm, hshape⟩
        refine ⟨m, ?_, hshape⟩
        simp only [Node.subtreeNodes, List.mem_cons, List.mem_append]
        tauto
  | s, .variableDeclaration declarations, u, hu => by
      simp only [collectKids] at hu
      have h := hu
      rcases collectSeq_emits _ declarations u h with ⟨m, hm, hshape⟩
      refine ⟨m, ?_, hshape⟩
      simp only [Node.subtreeNodes, List.mem_cons, List.mem_append]
      tauto
  | s, .variableDeclarator id ini, u, hu => by
      simp only [collectKids, List.mem_append] at hu
      rcases hu with ((h | h) | h)
      · refine ⟨id, ?_, processFunction_emits _ _ _ _ h⟩
        have hma := self_mem_subtreeNodes id
        simp only [Node.subtreeNodes, List.mem_cons, List.mem_append]
        tauto
      · rcases collectKids_emits false id u h with ⟨m, hm, hshape⟩
        refine ⟨m, ?_, hshape⟩
        simp only [Node.subtreeNodes, List.mem_cons, List.mem_append]
        tauto
      · rcases collectOpt_emits _ ini u h with ⟨m, hm, hshape⟩
        refine ⟨m, ?_, hshape⟩
        simp only [Node.subtreeNodes, List.mem_cons, List.mem_append]
        tauto
  | s, .binaryExpression operator left right, u, hu => by
      simp only [collectKids, List.mem_append] at hu
      rcases hu with (((h | h) | h) | h)
      · refine ⟨left, ?_, processFunction_emits _ _ _ _ h⟩
        have hma := self_mem_subtreeNodes left
        simp only [Node.subtreeNodes, List.mem_cons, List.mem_append]
        tauto
      · rcases collectKids_emits false left u h with ⟨m, hm, hshape⟩
        refine ⟨m, ?_, hshape⟩
        simp only [Node.subtreeNodes, List.mem_cons, List.mem_append]
        tauto
      · refine ⟨right, ?_, processFunction_emits _ _ _ _ h⟩
        have hma := self_mem_subtreeNodes right
        simp only [Node.subtreeNodes, List.mem_cons, List.mem_append]
        tauto
      · rcases collectKids_emits false right u h with ⟨m, hm, hshape⟩
        refine ⟨m, ?_, hshape⟩
        simp only [Node.subtreeNodes, List.mem_cons, List.mem_append]
        tauto
  | s, .logicalExpression operator left right, u, hu => by
      simp only [collectKids, List.mem_append] at hu
      rcases hu with (((h | h) | h) | h)
      · refine ⟨left, ?_, processFunction_emits _ _ _ _ h⟩
        have hma := self_mem_subtreeNodes left
        simp only [Node.subtreeNodes, List.mem_cons, List.mem_append]
        tauto
      · rcases collectKids_emits false left u h with ⟨m, hm, hshape⟩
        refine ⟨m, ?_, hshape⟩
        simp only [Node.subtreeNodes, List.mem_cons, List.mem_append]
        tauto
      · refine ⟨right, ?_, processFunction_emits _ _ _ _ h⟩
        have hma := self_mem_subtreeNodes right
        simp only [Node.subtreeNodes, List.mem_cons, List.mem_append]
        tauto
      · rcases collectKids_emits false right u h with ⟨m, hm, hshape⟩
        refine ⟨m, ?_, hshape⟩
        simp only [Node.subtreeNodes, List.mem_cons, List.mem_append]
        tauto
  | s, .assignmentExpression operator left right, u, hu => by
      simp only [collectKids, List.mem_append] at hu
      rcases hu with (((h | h) | h) | h)
      · refine ⟨left, ?_, processFunction_emits _ _ _ _ h⟩
        have hma := self_mem_subtreeNodes left
        simp only [Node.subtreeNodes, List.mem_cons, List.mem_append]
        tauto
      · rcases collectKids_emits false left u h with ⟨m, hm, hshape⟩
        refine ⟨m, ?_, hshape⟩
        simp only [Node.subtreeNodes, List.mem_cons, List.mem_append]
        tauto
      · refine ⟨right, ?_, processFunction_emits _ _ _ _ h⟩
        have hma := self_mem_subtreeNodes right
        simp only [Node.subtreeNodes, List.mem_cons, List.mem_append]
        tauto
      · rcases collectKids_emits false right u h with ⟨m, hm, hshape⟩
        refine ⟨m, ?_, hshape⟩
        simp only [Node.subtreeNodes, List.mem_cons, List.mem_append]
        tauto
  | s, .updateExpression operator argument, u, hu => by
      simp only [collectKids, List.mem_append] at hu
      rcases hu with (h | h)
      · refine ⟨argument, ?_, processFunction_emits _ _ _ _ h⟩
        have hma := self_mem_subtreeNodes argument
        simp only [Node.subtreeNodes, List.mem_cons, List.mem_append]
        tauto
      · rcases collectKids_emits false argument u h with ⟨m, hm, hshape⟩
        refine ⟨m, ?_, hshape⟩
        simp only [Node.subtreeNodes, List.mem_cons, List.mem_append]
        tauto
  | s, .unaryExpression operator argument, u, hu => by
      simp only [collectKids, List.mem_append] at hu
      rcases hu with (h | h)
      · refine ⟨argument, ?_, processFunction_emits _ _ _ _ h⟩
        have hma := self_mem_subtreeNodes argument
        simp only [Node.subtreeNodes, List.mem_cons, List.mem_append]
        tauto
      · rcases collectKids_emits false argument u h with ⟨m, hm, hshape⟩
        refine ⟨m, ?_, hshape⟩
        simp only [Node.subtreeNodes, List.mem_cons, List.mem_append]
        tauto
  | s, .conditionalExpression test consequent alternate, u, hu => by
      simp only [collectKids, List.mem_append] at hu
      rcases hu with (((((h | h) | h) | h) | h) | h)
      · refine ⟨test, ?_, processFunction_emits _ _ _ _ h⟩
        have hma := self_mem_subtreeNodes test
        simp only [Node.subtreeNodes, List.mem_cons, List.mem_append]
        tauto
      · rcases collectKids_emits false test u h with ⟨m, hm, hshape⟩
        refine ⟨m, ?_, hshape⟩
        simp only [Node.subtreeNodes, List.mem_cons, List.mem_append]
        tauto
      · refine ⟨consequent, ?_, processFunction_emits _ _ _ _ h⟩
        have hma := self_mem_subtreeNodes consequent
        simp only [Node.subtreeNodes, List.mem_cons, List.mem_append]
        tauto
      · rcases collectKids_emits false consequent u h with ⟨m, hm, hshape⟩
        refine ⟨m, ?_, hshape⟩
        simp only [Node.subtreeNodes, List.mem_cons, List.mem_append]
        tauto
      · refine ⟨alternate, ?_, processFunction_emits _ _ _ _ h⟩
        have hma := self_mem_subtreeNodes alternate
        simp only [Node.subtreeNodes, List.mem_cons, List.mem_append]
        tauto
      · rcases collectKids_emits false alternate u h with ⟨m, hm, hshape⟩
        refine ⟨m, ?_, hshape⟩
        simp only [Node.subtreeNodes, List.mem_cons, List.mem_append]
        tauto
  | s, .callExpression callee arguments, u, hu => by
      simp only [collectKids, List.mem_append] at hu
      rcases hu with ((h | h) | h)
      · refine ⟨callee, ?_, processFunction_emits _ _ _ _ h⟩
        have hma := self_mem_subtreeNodes callee
        simp only [Node.subtreeNodes, List.mem_cons, List.mem_append]
        tauto
      · rcases collectKids_emits false callee u h with ⟨m, hm, hshape⟩
        refine ⟨m, ?_, hshape⟩
        simp only [Node.subtreeNodes, List.mem_cons, List.mem_append]
        tauto
      · rcases collectSeq_emits _ arguments u h with ⟨m, hm, hshape⟩
        refine ⟨m, ?_, hshape⟩
        simp only [Node.subtreeNodes, List.mem_cons, List.mem_append]
        tauto
  | s, .newExpression callee arguments, u, hu => by
      simp only [collectKids, List.mem_append] at hu
      rcases hu with ((h | h) | h)
      · refine ⟨callee, ?_, processFunction_emits _ _ _ _ h⟩
        have hma := self_mem_subtreeNodes callee
        simp only [Node.subtreeNodes, List.mem_cons, List.mem_append]
        tauto
      · rcases collectKids_emits false callee u h with ⟨m, hm, hshape⟩
        refine ⟨m, ?_, hshape⟩
        simp only [Node.subtreeNodes, List.mem_cons, List.mem_append]
        tauto
      · rcases collectSeq_emits _ arguments u h with ⟨m, hm, hshape⟩
        refine ⟨m, ?_, hshape⟩
        simp only [Node.subtreeNodes, List.mem_cons, List.mem_append]
        tauto
  | s, .memberExpression object property computed, u, hu => by
      simp only [collectKids, List.mem_append] at hu
      rcases hu with (((h | h) | h) | h)
      · refine ⟨object, ?_, processFunction_emits _ _ _ _ h⟩
        have hma := self_mem_subtreeNodes object
        simp only [Node.subtreeNodes, List.mem_cons, List.mem_append]
        tauto
      · rcases collectKids_emits false object u h with ⟨m, hm, hshape⟩
        refine ⟨m, ?_, hshape⟩
        simp only [Node.subtreeNodes, List.mem_cons, List.mem_append]
        tauto
      · refine ⟨property, ?_, processFunction_emits _ _ _ _ h⟩
        have hma := self_mem_subtreeNodes property
        simp only [Node.subtreeNodes, List.mem_cons, List.mem_append]
        tauto
      · rcases collectKids_emits false property u h with ⟨m, hm, hshape⟩
        refine ⟨m, ?_, hshape⟩
        simp only [Node.subtreeNodes, List.mem_cons, List.mem_append]
        tauto
  | s, .functionDeclaration id params body loc, u, hu => by
      simp only [collectKids, List.mem_append] at hu
      rcases hu with (((h | h) | h) | h)
      · rcases collectOpt_emits _ id u h with ⟨m, hm, hshape⟩
        refine ⟨m, ?_, hshape⟩
        simp only [Node.subtreeNodes, List.mem_cons, List.mem_append]
        tauto
      · rcases collectSeq_emits _ params u h with ⟨m, hm, hshape⟩
        refine ⟨m, ?_, hshape⟩
        simp only [Node.subtreeNodes, List.mem_cons, List.mem_append]
        tauto
      · refine ⟨body, ?_, processFunction_emits _ _ _ _ h⟩
        have hma := self_mem_subtreeNodes body
        simp only [Node.subtreeNodes, List.mem_cons, List.mem_append]
        tauto
      · rcases collectKids_emits false body u h with ⟨m, hm, hshape⟩
        refine ⟨m, ?_, hshape⟩
        simp only [Node.subtreeNodes, List.mem_cons, List.mem_append]
        tauto
  | s, .functionExpression id params body loc, u, hu => by
      simp only [collectKids, List.mem_append] at hu
      rcases hu with (((h | h) | h) | h)
      · rcases collectOpt_emits _ id u h with ⟨m, hm, hshape⟩
        refine ⟨m, ?_, hshape⟩
        simp only [Node.subtreeNodes, List.mem_cons, List.mem_append]
        tauto
      · rcases collectSeq_emits _ params u h with ⟨m, hm, hshape⟩
        refine ⟨m, ?_, hshape⟩
        simp only [Node.subtreeNodes, List.mem_cons, List.mem_append]
        tauto
      · refine ⟨body, ?_, processFunction_emits _ _ _ _ h⟩
        have hma := self_mem_subtreeNodes body
        simp only [Node.subtreeNodes, List.mem_cons, List.mem_append]
        tauto
      · rcases collectKids_emits false body u h with ⟨m, hm, hshape⟩
        refine ⟨m, ?_, hshape⟩
        simp only [Node.subtreeNodes, List.mem_cons, List.mem_append]
        tauto
  | s, .arrowFunctionExpression params body loc, u, hu => by
      simp only [collectKids, List.mem_append] at hu
      rcases hu with ((h | h) | h)
      · rcases collectSeq_emits _ params u h with ⟨m, hm, hshape⟩
        refine ⟨m, ?_, hshape⟩
        simp only [Node.subtreeNodes, List.mem_cons, List.mem_append]
        tauto
      · refine ⟨body, ?_, processFunction_emits _ _ _ _ h⟩
        have hma := self_mem_subtreeNodes body
        simp only [Node.subtreeNodes, List.mem_cons, List.mem_append]
        tauto
      · rcases collectKids_emits false body u h with ⟨m, hm, hshape⟩
        refine ⟨m, ?_, hshape⟩
        simp only [Node.subtreeNodes, List.mem_cons, List.mem_append]
        tauto
  | s, .methodDefinition key value kind loc, u, hu => by
      simp only [collectKids, List.mem_append] at hu
      rcases hu with (((h | h) | h) | h)
      · refine ⟨key, ?_, processFunction_emits _ _ _ _ h⟩
        have hma := self_mem_subtreeNodes key
        simp only [Node.subtreeNodes, List.mem_cons, List.mem_append]
        tauto
      · rcases collectKids_emits false key u h with ⟨m, hm, hshape⟩
        refine ⟨m, ?_, hshape⟩
        simp only [Node.subtreeNodes, List.mem_cons, List.mem_append]
        tauto
      · refine ⟨value, ?_, processFunction_emits _ _ _ _ h⟩
        have hma := self_mem_subtreeNodes value
        simp only [Node.subtreeNodes, List.mem_cons, List.mem_append]
        tauto
      · rcases collectKids_emits (loc.isSome && !s) value u h with ⟨m, hm, hshape⟩
        refine ⟨m, ?_, hshape⟩
        simp only [Node.subtreeNodes, List.mem_cons, List.mem_append]
        tauto
  | s, .classDeclaration id superClass implementsList body, u, hu => by
      simp only [collectKids, List.mem_append] at hu
      rcases hu with ((((h | h) | h) | h) | h)
      · rcases collectOpt_emits _ id u h with ⟨m, hm, hshape⟩
        refine ⟨m, ?_, hshape⟩
        simp only [Node.subtreeNodes, List.mem_cons, List.mem_append]
        tauto
      · rcases collectOpt_emits _ superClass u h with ⟨m, hm, hshape⟩
        refine ⟨m, ?_, hshape⟩
        simp only [Node.subtreeNodes, List.mem_cons, List.mem_append]
        tauto
      · rcases collectSeq_emits _ implementsList u h with ⟨m, hm, hshape⟩
        refine ⟨m, ?_, hshape⟩
        simp only [Node.subtreeNodes, List.mem_cons, List.mem_append]
        tauto
      · refine ⟨body, ?_, processFunction_emits _ _ _ _ h⟩
        have hma := self_mem_subtreeNodes body
        simp only [Node.subtreeNodes, List.mem_cons, List.mem_append]
        tauto
      · rcases collectKids_emits false body u h with ⟨m, hm, hshape⟩
        refine ⟨m, ?_, hshape⟩
        simp only [Node.subtreeNodes, List.mem_cons, List.mem_append]
        tauto
  | s, .classExpression id superClass implementsList body, u, hu => by
      simp only [collectKids, List.mem_append] at hu
      rcases hu with ((((h | h) | h) | h) | h)
      · rcases collectOpt_emits _ id u h with ⟨m, hm, hshape⟩
        refine ⟨m, ?_, hshape⟩
        simp only [Node.subtreeNodes, List.mem_cons, List.mem_append]
        tauto
      · rcases collectOpt_emits _ superClass u h with ⟨m, hm, hshape⟩
        refine ⟨m, ?_, hshape⟩
        simp only [Node.subtreeNodes, List.mem_cons, List.mem_append]
        tauto
      · rcases collectSeq_emits _ implementsList u h with ⟨m, hm, hshape⟩
        refine ⟨m, ?_, hshape⟩
        simp only [Node.subtreeNodes, List.mem_cons, List.mem_append]
        tauto
      · refine ⟨body, ?_, processFunction_emits _ _ _ _ h⟩
        have hma := self_mem_subtreeNodes body
        simp only [Node.subtreeNodes, List.mem_cons, List.mem_append]
        tauto
      · rcases collectKids_emits false body u h with ⟨m, hm, hshape⟩
        refine ⟨m, ?_, hshape⟩
        simp only [Node.subtreeNodes, List.mem_cons, List.mem_append]
        tauto
  | s, .classBody body, u, hu => by
      simp only [collectKids] at hu
      have h := hu
      rcases collectSeq_emits _ body u h with ⟨m, hm, hshape⟩
      refine ⟨m, ?_, hshape⟩
      simp only [Node.subtreeNodes, List.mem_cons, List.mem_append]
      tauto
  | s, .propertyDefinition key value, u, hu => by
      simp only [collectKids, List.mem_append] at hu
      rcases hu with ((h | h) | h)
      · refine ⟨key, ?_, processFunction_emits _ _ _ _ h⟩
        have hma := self_mem_subtreeNodes key
        simp only [Node.subtreeNodes, List.mem_cons, List.mem_append]
        tauto
      · rcases collectKids_emits false key u h with ⟨m, hm, hshape⟩
        refine ⟨m, ?_, hshape⟩
        simp only [Node.subtreeNodes, List.mem_cons, List.mem_append]
        tauto
      · rcases collectOpt_emits _ value u h with ⟨m, hm, hshape⟩
        refine ⟨m, ?_, hshape⟩
        simp only [Node.subtreeNodes, List.mem_cons, List.mem_append]
        tauto
  | s, .tsParameterProperty parameter, u, hu => by
      simp only [collectKids, List.mem_append] at hu
      rcases hu with (h | h)
      · refine ⟨parameter, ?_, processFunction_emits _ _ _ _ h⟩
        have hma := self_mem_subtreeNodes parameter
        simp only [Node.subtreeNodes, List.mem_cons, List.mem_append]
        tauto
      · rcases collectKids_emits false parameter u h with ⟨m, hm, hshape⟩
        refine ⟨m, ?_, hshape⟩
        simp only [Node.subtreeNodes, List.mem_cons, List.mem_append]
        tauto
  | s, .tsInterfaceDeclaration id extendsList body, u, hu => by
      simp only [collectKids, List.mem_append] at hu
      rcases hu with (((h | h) | h) | h)
      · rcases collectOpt_emits _ id u h with ⟨m, hm, hshape⟩
        refine ⟨m, ?_, hshape⟩
        simp only [Node.subtreeNodes, List.mem_cons, List.mem_append]
        tauto
      · rcases collectSeq_emits _ extendsList u h with ⟨m, hm, hshape⟩
        refine ⟨m, ?_, hshape⟩
        simp only [Node.subtreeNodes, List.mem_cons, List.mem_append]
        tauto
      · refine ⟨body, ?_, processFunction_emits _ _ _ _ h⟩
        have hma := self_mem_subtreeNodes body
        simp only [Node.subtreeNodes, List.mem_cons, List.mem_append]
        tauto
      · rcases collectKids_emits false body u h with ⟨m, hm, hshape⟩
        refine ⟨m, ?_, hshape⟩
        simp only [Node.subtreeNodes, List.mem_cons, List.mem_append]
        tauto
  | s, .tsInterfaceHeritage expression, u, hu => by
      simp only [collectKids, List.mem_append] at hu
      rcases hu with (h | h)
      · refine ⟨expression, ?_, processFunction_emits _ _ _ _ h⟩
        have hma := self_mem_subtreeNodes expression
        simp only [Node.subtreeNodes, List.mem_cons, List.mem_append]
        tauto
      · rcases collectKids_emits false expression u h with ⟨m, hm, hshape⟩
        refine ⟨m, ?_, hshape⟩
        simp only [Node.subtreeNodes, List.mem_cons, List.mem_append]
        tauto
  | s, .tsClassImplements expression, u, hu => by
      simp only [collectKids, List.mem_append] at hu
      rcases hu with (h | h)
      · refine ⟨expression, ?_, processFunction_emits _ _ _ _ h⟩
        have hma := self_mem_subtreeNodes expression
        simp only [Node.subtreeNodes, List.mem_cons, List.mem_append]
        tauto
      · rcases collectKids_emits false expression u h with ⟨m, hm, hshape⟩
        refine ⟨m, ?_, hshape⟩
        simp only [Node.subtreeNodes, List.mem_cons, List.mem_append]
        tauto
  | s, .tsInterfaceBody body, u, hu => by
      simp only [collectKids] at hu
      have h := hu
      rcases collectSeq_emits _ body u h with ⟨m, hm, hshape⟩
      refine ⟨m, ?_, hshape⟩
      simp only [Node.subtreeNodes, List.mem_cons, List.mem_append]
      tauto

theorem collectSeq_emits : ∀ (p : Node) (l : List Node) (u : FunctionAnalysis),
    u ∈ collectSeq p l → ∃ m, m ∈ Node.subtreeNodesList l ∧ unitFromNode m u
  | p, [], u, hu => by
      simp only [collectSeq, List.not_mem_nil] at hu
  | p, a :: l, u, hu => by
      simp only [collectSeq, List.mem_append] at hu
      rcases hu with (h | h) | h
      · refine ⟨a, ?_, processFunction_emits _ _ _ _ h⟩
        have hma := self_mem_subtreeNodes a
        simp only [Node.subtreeNodesList, List.mem_append]
        tauto
      · rcases collectKids_emits false a u h with ⟨m, hm, hshape⟩
        refine ⟨m, ?_, hshape⟩
        simp only [Node.subtreeNodesList, List.mem_append]
        tauto
      · rcases collectSeq_emits p l u h with ⟨m, hm, hshape⟩
        refine ⟨m, ?_, hshape⟩
        simp only [Node.subtreeNodesList, List.mem_append]
        tauto

theorem collectOpt_emits : ∀ (p : Node) (o : Option Node) (u : FunctionAnalysis),
    u ∈ collectOpt p o → ∃ m, m ∈ Node.subtreeNodesOpt o ∧ unitFromNode m u
  | p, none, u, hu => by
      simp only [collectOpt, List.not_mem_nil] at hu
  | p, some a, u, hu => by
      simp only [collectOpt, List.mem_append] at hu
      rcases hu with h | h
      · refine ⟨a, ?_, processFunction_emits _ _ _ _ h⟩
        simp only [Node.subtreeNodesOpt]
        exact self_mem_subtreeNodes a
      · rcases collectKids_emits false a u h with ⟨m, hm, hshape⟩
        refine ⟨m, ?_, hshape⟩
        simp only [Node.subtreeNodesOpt]
        exact hm
end

theorem collectFunctions_emits (p : Option Node) (s : Bool) (t : Node)
    (u : FunctionAnalysis) (hu : u ∈ collectFunctions p s t) :
    ∃ m, m ∈ Node.subtreeNodes t ∧ unitFromNode m u := by
  unfold collectFunctions at hu
  rcases List.mem_append.mp hu with h | h
  · exact ⟨t, self_mem_subtreeNodes t, processFunction_emits _ _ _ _ h⟩
  · exact collectKids_emits s t u h

theorem mem_sortByStartLine (u : FunctionAnalysis) :
    ∀ (l : List FunctionAnalysis), u ∈ sortByStartLine l ↔ u ∈ l
  | [] => Iff.rfl
  | a :: l => by
      show u ∈ insertByStartLine a (sortByStartLine l) ↔ _
      rw [mem_insertByStartLine u a (sortByStartLine l), mem_sortByStartLine u l,
        List.mem_cons]

end FunctionAnalyzer

/-- C4 amended: every discovered unit's metrics (complexity, Halstead
volume, LOC) are computed over an entire node of the tree, never over a
body subtree alone: for a method over the method's function-value node
(parameter list included, method key excluded), for every other
function-like unit over the discovered node itself, name identifier and
parameter list included. -/
theorem functionUnit_metrics_over_whole_node (t : Node) (u : FunctionAnalysis)
    (hu : u ∈ FunctionAnalyzer.analyzeFunctions t) :
    ∃ m, m ∈ Node.subtreeNodes t ∧ FunctionAnalyzer.unitFromNode m u := by
  unfold FunctionAnalyzer.analyzeFunctions at hu
  rw [FunctionAnalyzer.mem_sortByStartLine] at hu
  exact FunctionAnalyzer.collectFunctions_emits none false t u hu

/-- C4 witness: the one unit discovered in program [function f(x) {}]
originates from a whole node of the tree. -/
theorem functionUnit_metrics_over_whole_node_witness :
    ∃ m, m ∈ Node.subtreeNodes exC4tree
      ∧ FunctionAnalyzer.unitFromNode m
          { name := "f"
            type := FunctionType.function
            startLine := 1
            endLine := 1
            metrics := FunctionAnalyzer.calculate exC4fn } :=
  functionUnit_metrics_over_whole_node exC4tree
    { name := "f"
      type := FunctionType.function
      startLine := 1
      endLine := 1
      metrics := FunctionAnalyzer.calculate exC4fn }
    (by
      have h : FunctionAnalyzer.analyzeFunctions exC4tree
          = [{ name := "f"
               type := FunctionType.function
               startLine := 1
               endLine := 1
               metrics := FunctionAnalyzer.calculate exC4fn }] := rfl
      rw [h]
      exact List.mem_cons_self _ _)

/-- C6 counterexample: in the class with the single method m() {}, the
emitted unit's logical-line count is 1 — the method's function-value
node itself is counted — while the logical-line count of the method's
body subtree alone is 0, so the unit's metrics are not computed over the
function-value body. -/
theorem methodUnit_metrics_not_body_only :
    (FunctionAnalyzer.analyzeFunctions exC6tree).map
        (fun u => u.metrics.metrics.linesOfCode) = [1]
      ∧ FunctionAnalyzer.countLogicalLinesOfCode (Node.blockStatement []) = 0
      ∧ (1 : Nat) ≠ 0 :=
  ⟨rfl, rfl, by norm_num⟩

end Qualytics
